import Mathlib

/-!
Shallow embedding of the GranularProcessor DSP core (Source/DSP/*.h) and
proofs about it.

Conventions used throughout:
* C++ `float`/`double` values are modelled as real numbers `ℝ` (the source
  freely uses `tan`, `tanh`, `sin`, `cos`, `exp`, `pow`, so an exact real
  model is the natural shallow embedding).
* C++ `int` is modelled as `ℤ` where negative values can occur (grain
  counters, scheduler countdown, feedback positions) and as `ℕ` for
  quantities that are non-negative by construction (buffer indices,
  channel numbers, write positions).
* The C cast `(int) x` (truncation towards zero) is `realTrunc`, and
  `std::fmod` (remainder with truncated quotient) is `rfmod`.
* C++ `%` on `int` is truncated remainder, i.e. `Int.tmod`.
* `juce::Random::nextFloat()` streams are modelled as an explicit function
  `ℕ → ℝ` together with a cursor index carried by the owning component,
  mirroring the per-component generator instances of the source.
-/

noncomputable section

/-- C cast from float to int: truncation toward zero. -/
def realTrunc (x : ℝ) : ℤ := if 0 ≤ x then ⌊x⌋ else ⌈x⌉

/-- Model of std::fmod on floats: x − y·trunc(x/y). -/
def rfmod (x y : ℝ) : ℝ := x - y * ((realTrunc (x / y) : ℤ) : ℝ)

/-- Model of juce::jlimit on floats: if x < lo then lo else if hi < x then hi else x. -/
def jlimitR (lo hi x : ℝ) : ℝ := if x < lo then lo else if hi < x then hi else x

/-- Model of juce::jlimit on ints. -/
def jlimitZ (lo hi x : ℤ) : ℤ := if x < lo then lo else if hi < x then hi else x

namespace GranularConstants

/-- Source/Utils/Constants.h: kMaxGrains = 64. -/
def kMaxGrains : ℕ := 64

/-- Source/Utils/Constants.h: kMinGrainSizeMs = 10.0f. -/
def kMinGrainSizeMs : ℝ := 10

/-- Source/Utils/Constants.h: kMaxGrainSizeMs = 500.0f. -/
def kMaxGrainSizeMs : ℝ := 500

end GranularConstants

/-- State of Source/DSP/CircularBuffer.h.  `data` maps (channel, index) to the
stored sample; the juce::AudioBuffer backing store is total on ℕ × ℕ here,
with the code only ever addressing indices below `activeSamples`
(theorem about claim C9 proves exactly this). -/
structure CircularBuffer where
  data : ℕ → ℕ → ℝ
  sr : ℝ
  maxSamples : ℕ
  activeSamples : ℕ
  writePos : ℕ
  frozen : Bool

namespace CircularBuffer

/-- CircularBuffer::setBufferLength: activeSamples = jlimit(1, maxSamples, (int)(sr·lengthSeconds)). -/
def setBufferLength (b : CircularBuffer) (lengthSeconds : ℝ) : CircularBuffer :=
  { b with activeSamples := (jlimitZ 1 (b.maxSamples : ℤ) (realTrunc (b.sr * lengthSeconds))).toNat }

/-- CircularBuffer::writeSample: no-op while frozen; otherwise stores at writePos % activeSamples. -/
def writeSample (b : CircularBuffer) (channel : ℕ) (sample : ℝ) : CircularBuffer :=
  if b.frozen then b else
  { b with data := fun c i =>
      if c = channel ∧ i = b.writePos % b.activeSamples then sample else b.data c i }

/-- CircularBuffer::advanceWritePosition: writePos = (writePos + 1) % activeSamples unless frozen. -/
def advanceWritePosition (b : CircularBuffer) : CircularBuffer :=
  if b.frozen then b else { b with writePos := (b.writePos + 1) % b.activeSamples }

/-- Position normalisation step of CircularBuffer::readSample:
`normalised = fmod(pos, len); pos = normalised < 0 ? normalised + len : normalised`. -/
def normalisePos (len : ℕ) (fractionalPos : ℝ) : ℝ :=
  let normalised := rfmod fractionalPos (len : ℝ)
  if normalised < 0 then normalised + (len : ℝ) else normalised

/-- Tap indices of CircularBuffer::readSample: `i0 = (int) pos` and the
wrap-indexed neighbours `(i0-1+len) % len`, `(i0+1) % len`, `(i0+2) % len`
(C++ `%` on ints is truncated remainder). -/
def readIndices (len : ℕ) (fractionalPos : ℝ) : ℤ × ℕ × ℕ × ℕ :=
  let pos := normalisePos len fractionalPos
  let i0 : ℤ := realTrunc pos
  (i0,
   ((i0 - 1 + (len : ℤ)).tmod (len : ℤ)).toNat,
   ((i0 + 1).tmod (len : ℤ)).toNat,
   ((i0 + 2).tmod (len : ℤ)).toNat)

/-- Four-point Hermite interpolation kernel of CircularBuffer::readSample. -/
def hermite (ym1 y0 y1 y2 frac : ℝ) : ℝ :=
  let c0 := y0
  let c1 := 0.5 * (y1 - ym1)
  let c2 := ym1 - 2.5 * y0 + 2 * y1 - 0.5 * y2
  let c3 := 0.5 * (y2 - ym1) + 1.5 * (y0 - y1)
  ((c3 * frac + c2) * frac + c1) * frac + c0

/-- CircularBuffer::readSample: normalise the fractional position, take the four
neighbouring taps, Hermite-interpolate.  `i0` itself is used unwrapped for `y0`,
exactly as in the source. -/
def readSample (b : CircularBuffer) (channel : ℕ) (fractionalPos : ℝ) : ℝ :=
  let len := b.activeSamples
  let pos := normalisePos len fractionalPos
  let idx := readIndices len fractionalPos
  let frac := pos - ((idx.1 : ℤ) : ℝ)
  hermite (b.data channel idx.2.1) (b.data channel idx.1.toNat)
    (b.data channel idx.2.2.1) (b.data channel idx.2.2.2) frac

/-- CircularBuffer::writeFeedbackAt: no-op while frozen; otherwise wraps the int
position with `((position % activeSamples) + activeSamples) % activeSamples`
and adds the sample to the existing content. -/
def writeFeedbackAt (b : CircularBuffer) (channel : ℕ) (position : ℤ) (sample : ℝ) : CircularBuffer :=
  if b.frozen then b else
  let pos := (((position.tmod (b.activeSamples : ℤ)) + (b.activeSamples : ℤ)).tmod (b.activeSamples : ℤ)).toNat
  { b with data := fun c i => if c = channel ∧ i = pos then b.data c i + sample else b.data c i }

/-- CircularBuffer::setFrozen. -/
def setFrozen (b : CircularBuffer) (shouldFreeze : Bool) : CircularBuffer :=
  { b with frozen := shouldFreeze }

/-- CircularBuffer::getWritePosition. -/
def getWritePosition (b : CircularBuffer) : ℕ := b.writePos

/-- CircularBuffer::getActiveLength. -/
def getActiveLength (b : CircularBuffer) : ℕ := b.activeSamples

end CircularBuffer

/-- Writing a block while iterating channels 0..numChannels−1, then advancing —
the per-sample input-write pattern of GranularEngine::process, reused to state
the freeze scenario of claim C2. -/
def writeInputChannels (b : CircularBuffer) (numChannels : ℕ) (inp : ℕ → ℝ) : CircularBuffer :=
  match numChannels with
  | 0 => b
  | k + 1 => (writeInputChannels b k inp).writeSample k (inp k)

/-- Repeating write-then-advance for n samples of a block (the engine's input pass). -/
def writeAdvanceBlock (b : CircularBuffer) (numChannels : ℕ) (input : ℕ → ℕ → ℝ) : ℕ → CircularBuffer
  | 0 => b
  | s + 1 => (writeInputChannels (writeAdvanceBlock b numChannels input s) numChannels
      (fun ch => input ch s)).advanceWritePosition

/-! Facts about the position normalisation of readSample. -/

/-- On a positive length, fmod-then-add-length equals the floored modulo:
`len · fract (x / len)`. -/
lemma normalisePos_eq_fract (len : ℕ) (hlen : 0 < len) (x : ℝ) :
    CircularBuffer.normalisePos len x = (len : ℝ) * Int.fract (x / (len : ℝ)) := by
  have hL : (0 : ℝ) < (len : ℝ) := by exact_mod_cast hlen
  have hLne : (len : ℝ) ≠ 0 := ne_of_gt hL
  have hx : (len : ℝ) * (x / (len : ℝ)) = x := mul_div_cancel₀ x hLne
  unfold CircularBuffer.normalisePos rfmod realTrunc
  by_cases h0 : 0 ≤ x / (len : ℝ)
  · rw [if_pos h0]
    have hval : x - (len : ℝ) * ((⌊x / (len : ℝ)⌋ : ℤ) : ℝ) =
        (len : ℝ) * Int.fract (x / (len : ℝ)) := by
      rw [Int.fract, mul_sub, hx]
    rw [hval, if_neg (not_lt.mpr (mul_nonneg hL.le (Int.fract_nonneg _)))]
  · rw [if_neg h0]
    push_neg at h0
    by_cases hf : Int.fract (x / (len : ℝ)) = 0
    · have htz : x / (len : ℝ) = ((⌊x / (len : ℝ)⌋ : ℤ) : ℝ) := by
        rw [Int.fract] at hf
        linarith
      have hceil : ⌈x / (len : ℝ)⌉ = ⌊x / (len : ℝ)⌋ :=
        le_antisymm (Int.ceil_le.mpr (le_of_eq htz)) (Int.floor_le_ceil _)
      have hval : x - (len : ℝ) * ((⌈x / (len : ℝ)⌉ : ℤ) : ℝ) = 0 := by
        rw [hceil, ← htz, hx, sub_self]
      rw [hval, if_neg (lt_irrefl 0), hf, mul_zero]
    · have hflt : ((⌊x / (len : ℝ)⌋ : ℤ) : ℝ) < x / (len : ℝ) :=
        lt_of_le_of_ne (Int.floor_le _) fun h => hf (by rw [Int.fract]; linarith)
      have hceil : ⌈x / (len : ℝ)⌉ = ⌊x / (len : ℝ)⌋ + 1 := by
        apply le_antisymm
        · apply Int.ceil_le.mpr
          push_cast
          linarith [Int.lt_floor_add_one (x / (len : ℝ))]
        · exact Int.add_one_le_iff.mpr (Int.lt_ceil.mpr hflt)
      have hval : x - (len : ℝ) * ((⌈x / (len : ℝ)⌉ : ℤ) : ℝ) =
          (len : ℝ) * (Int.fract (x / (len : ℝ)) - 1) := by
        rw [hceil, Int.fract]
        push_cast
        rw [mul_sub, mul_sub, hx]
        ring
      have hneg : (len : ℝ) * (Int.fract (x / (len : ℝ)) - 1) < 0 :=
        mul_neg_of_pos_of_neg hL (by linarith [Int.fract_lt_one (x / (len : ℝ))])
      rw [hval, if_pos hneg]
      ring

/-- The normalised position lies in [0, len) for positive len. -/
lemma normalisePos_bounds (len : ℕ) (hlen : 0 < len) (x : ℝ) :
    0 ≤ CircularBuffer.normalisePos len x ∧ CircularBuffer.normalisePos len x < (len : ℝ) := by
  have hL : (0 : ℝ) < (len : ℝ) := by exact_mod_cast hlen
  rw [normalisePos_eq_fract len hlen x]
  constructor
  · exact mul_nonneg hL.le (Int.fract_nonneg _)
  · calc (len : ℝ) * Int.fract (x / (len : ℝ)) < (len : ℝ) * 1 :=
        (mul_lt_mul_left hL).mpr (Int.fract_lt_one _)
    _ = (len : ℝ) := mul_one _

/-- Periodicity of the normalised position in steps of len. -/
lemma normalisePos_add_int_mul (len : ℕ) (hlen : 0 < len) (x : ℝ) (k : ℤ) :
    CircularBuffer.normalisePos len (x + (k : ℝ) * (len : ℝ)) =
      CircularBuffer.normalisePos len x := by
  have hLne : (len : ℝ) ≠ 0 := Nat.cast_ne_zero.mpr hlen.ne'
  rw [normalisePos_eq_fract len hlen, normalisePos_eq_fract len hlen]
  congr 1
  have : (x + (k : ℝ) * (len : ℝ)) / (len : ℝ) = x / (len : ℝ) + (k : ℝ) := by
    field_simp
  rw [this, Int.fract_add_int]

/-- Reads at positions with equal normalisation coincide. -/
lemma readSample_congr (b : CircularBuffer) (channel : ℕ) {x y : ℝ}
    (h : CircularBuffer.normalisePos b.activeSamples x =
         CircularBuffer.normalisePos b.activeSamples y) :
    b.readSample channel x = b.readSample channel y := by
  simp only [CircularBuffer.readSample, CircularBuffer.readIndices]
  rw [h]

/-- Normalising an exact non-negative integer position yields i mod len. -/
lemma normalisePos_natCast (len : ℕ) (hlen : 0 < len) (i : ℕ) :
    CircularBuffer.normalisePos len (i : ℝ) = ((i % len : ℕ) : ℝ) := by
  have hL : (0 : ℝ) < (len : ℝ) := by exact_mod_cast hlen
  have hLne : (len : ℝ) ≠ 0 := ne_of_gt hL
  rw [normalisePos_eq_fract len hlen]
  have hi : ((len * (i / len) + i % len : ℕ) : ℝ) = (i : ℝ) := by
    exact_mod_cast congrArg (Nat.cast : ℕ → ℝ) (Nat.div_add_mod i len)
  have hsplit : (i : ℝ) / (len : ℝ) = ((i / len : ℕ) : ℝ) + ((i % len : ℕ) : ℝ) / (len : ℝ) := by
    rw [← hi]
    push_cast
    field_simp
    ring
  rw [hsplit]
  have hfr : Int.fract (((i / len : ℕ) : ℝ) + ((i % len : ℕ) : ℝ) / (len : ℝ)) =
      ((i % len : ℕ) : ℝ) / (len : ℝ) := by
    rw [add_comm, Int.fract_add_nat]
    apply Int.fract_eq_self.mpr
    constructor
    · positivity
    · rw [div_lt_one hL]
      exact_mod_cast Nat.mod_lt i hlen
  rw [hfr, mul_div_cancel₀ _ hLne]

/-- Hermite interpolation at fractional offset 0 returns the centre tap. -/
lemma hermite_zero (ym1 y0 y1 y2 : ℝ) : CircularBuffer.hermite ym1 y0 y1 y2 0 = y0 := by
  simp [CircularBuffer.hermite]

/-- Truncated remainder of a non-negative int by a positive int, taken toNat,
stays below the modulus. -/
lemma tmod_toNat_lt {a L : ℤ} (ha : 0 ≤ a) (hL : 0 < L) : (a.tmod L).toNat < L.toNat := by
  rw [Int.tmod_eq_emod ha hL.le]
  have h1 := Int.emod_nonneg a hL.ne'
  have h2 := Int.emod_lt_of_pos a hL
  omega

/-- C7: CircularBuffer::readSample is periodic in the active length — for every
channel, fractional position x and integer k, `read(x + k·activeSamples) =
read(x)`; and for every non-negative integer position i (zero fractional part)
the read returns the stored sample at index `i mod activeSamples`, the Hermite
kernel collapsing to the centre tap y0. -/
theorem readSample_periodic_integer (b : CircularBuffer) (hlen : 0 < b.activeSamples) :
    (∀ (channel : ℕ) (x : ℝ) (k : ℤ),
        b.readSample channel (x + (k : ℝ) * (b.activeSamples : ℝ)) = b.readSample channel x)
    ∧ ∀ (channel i : ℕ), b.readSample channel ((i : ℕ) : ℝ) = b.data channel (i % b.activeSamples) := by
  constructor
  · intro channel x k
    exact readSample_congr b channel (normalisePos_add_int_mul b.activeSamples hlen x k)
  · intro channel i
    have hnorm := normalisePos_natCast b.activeSamples hlen i
    simp only [CircularBuffer.readSample, CircularBuffer.readIndices]
    rw [hnorm]
    have htr : realTrunc (((i % b.activeSamples : ℕ) : ℝ)) = ((i % b.activeSamples : ℕ) : ℤ) := by
      rw [realTrunc, if_pos (by positivity), Int.floor_natCast]
    rw [htr]
    have hfrac : ((i % b.activeSamples : ℕ) : ℝ) - (((i % b.activeSamples : ℕ) : ℤ) : ℝ) = 0 := by
      rw [Int.cast_natCast]
      exact sub_self _
    rw [hfrac, hermite_zero, Int.toNat_natCast]

/-- Witness for C7 on a concrete 4-sample buffer. -/
def c7Buffer : CircularBuffer :=
  { data := fun _ i => (i : ℝ), sr := 44100, maxSamples := 8,
    activeSamples := 4, writePos := 0, frozen := false }

/-- Witness: claim C7's theorem applied at a concrete buffer and inputs. -/
theorem readSample_periodic_integer_witness :
    0 < c7Buffer.activeSamples
    ∧ c7Buffer.readSample 0 ((6 : ℕ) : ℝ) = c7Buffer.data 0 (6 % c7Buffer.activeSamples)
    ∧ c7Buffer.readSample 0 ((1 : ℝ) + ((2 : ℤ) : ℝ) * (c7Buffer.activeSamples : ℝ))
        = c7Buffer.readSample 0 1 :=
  ⟨by decide,
   (readSample_periodic_integer c7Buffer (by decide)).2 0 6,
   (readSample_periodic_integer c7Buffer (by decide)).1 0 1 2⟩

/-- C9: for every buffer with positive active length, every channel and every
finite fractional position (negative ones included), the position normalised by
readSample lies in [0, activeSamples), the centre index i0 lies in
[0, activeSamples), and the three wrap-indexed neighbour taps lie below
activeSamples — the read never addresses outside the active region. -/
theorem readIndices_in_range (b : CircularBuffer) (x : ℝ) (hlen : 0 < b.activeSamples) :
    (0 ≤ CircularBuffer.normalisePos b.activeSamples x
      ∧ CircularBuffer.normalisePos b.activeSamples x < (b.activeSamples : ℝ))
    ∧ (0 ≤ (CircularBuffer.readIndices b.activeSamples x).1
      ∧ (CircularBuffer.readIndices b.activeSamples x).1 < (b.activeSamples : ℤ)
      ∧ (CircularBuffer.readIndices b.activeSamples x).1.toNat < b.activeSamples)
    ∧ (CircularBuffer.readIndices b.activeSamples x).2.1 < b.activeSamples
    ∧ (CircularBuffer.readIndices b.activeSamples x).2.2.1 < b.activeSamples
    ∧ (CircularBuffer.readIndices b.activeSamples x).2.2.2 < b.activeSamples := by
  obtain ⟨hpos0, hposL⟩ := normalisePos_bounds b.activeSamples hlen x
  have hLZ : (0 : ℤ) < (b.activeSamples : ℤ) := by exact_mod_cast hlen
  have hi0 : realTrunc (CircularBuffer.normalisePos b.activeSamples x) =
      ⌊CircularBuffer.normalisePos b.activeSamples x⌋ := if_pos hpos0
  have hi0nn : 0 ≤ ⌊CircularBuffer.normalisePos b.activeSamples x⌋ := Int.floor_nonneg.mpr hpos0
  have hi0lt : ⌊CircularBuffer.normalisePos b.activeSamples x⌋ < (b.activeSamples : ℤ) :=
    Int.floor_lt.mpr (by exact_mod_cast hposL)
  simp only [CircularBuffer.readIndices, hi0]
  refine ⟨⟨hpos0, hposL⟩, ⟨hi0nn, hi0lt, by omega⟩, ?_, ?_, ?_⟩
  · have := tmod_toNat_lt (a := ⌊CircularBuffer.normalisePos b.activeSamples x⌋ - 1 + (b.activeSamples : ℤ))
      (L := (b.activeSamples : ℤ)) (by omega) hLZ
    omega
  · have := tmod_toNat_lt (a := ⌊CircularBuffer.normalisePos b.activeSamples x⌋ + 1)
      (L := (b.activeSamples : ℤ)) (by omega) hLZ
    omega
  · have := tmod_toNat_lt (a := ⌊CircularBuffer.normalisePos b.activeSamples x⌋ + 2)
      (L := (b.activeSamples : ℤ)) (by omega) hLZ
    omega

/-- Witness: claim C9's theorem applied at a concrete buffer and a small negative position. -/
theorem readIndices_in_range_witness :
    0 < c7Buffer.activeSamples
    ∧ CircularBuffer.normalisePos c7Buffer.activeSamples (-(1 / 1000000 : ℝ))
        < (c7Buffer.activeSamples : ℝ) :=
  ⟨by decide, (readIndices_in_range c7Buffer (-(1 / 1000000 : ℝ)) (by decide)).1.2⟩

/-! Freeze semantics. -/

/-- A frozen buffer ignores a whole channel-iterated input write. -/
lemma writeInputChannels_frozen (b : CircularBuffer) (hfrozen : b.frozen = true)
    (numChannels : ℕ) (inp : ℕ → ℝ) : writeInputChannels b numChannels inp = b := by
  induction numChannels with
  | zero => rfl
  | succ k ih =>
      show (writeInputChannels b k inp).writeSample k (inp k) = b
      rw [ih]
      simp [CircularBuffer.writeSample, hfrozen]

/-- C2: while frozen, writeSample, advanceWritePosition and writeFeedbackAt all
leave the buffer state (stored samples and writePos) unchanged for every
channel, position and value; readSample ignores the frozen flag entirely; and a
whole block of per-sample input writes while frozen leaves the buffer equal to
its pre-freeze state, so subsequent reads return the pre-freeze content. -/
theorem frozen_buffer_immutable (b : CircularBuffer) (hfrozen : b.frozen = true) :
    (∀ (channel : ℕ) (sample : ℝ), b.writeSample channel sample = b)
    ∧ b.advanceWritePosition = b
    ∧ (∀ (channel : ℕ) (position : ℤ) (sample : ℝ), b.writeFeedbackAt channel position sample = b)
    ∧ (∀ (fl : Bool) (channel : ℕ) (x : ℝ),
        (b.setFrozen fl).readSample channel x = b.readSample channel x)
    ∧ (∀ (numChannels n : ℕ) (input : ℕ → ℕ → ℝ), writeAdvanceBlock b numChannels input n = b)
    ∧ (∀ (numChannels n : ℕ) (input : ℕ → ℕ → ℝ) (channel : ℕ) (x : ℝ),
        (writeAdvanceBlock b numChannels input n).readSample channel x
          = b.readSample channel x) := by
  have hw : ∀ (channel : ℕ) (sample : ℝ), b.writeSample channel sample = b := by
    intro channel sample
    simp [CircularBuffer.writeSample, hfrozen]
  have ha : b.advanceWritePosition = b := by
    simp [CircularBuffer.advanceWritePosition, hfrozen]
  have hblock : ∀ (numChannels n : ℕ) (input : ℕ → ℕ → ℝ),
      writeAdvanceBlock b numChannels input n = b := by
    intro numChannels n input
    induction n with
    | zero => rfl
    | succ s ih =>
        show (writeInputChannels (writeAdvanceBlock b numChannels input s) numChannels
            (fun ch => input ch s)).advanceWritePosition = b
        rw [ih, writeInputChannels_frozen b hfrozen, ha]
  refine ⟨hw, ha, ?_, ?_, hblock, ?_⟩
  · intro channel position sample
    simp [CircularBuffer.writeFeedbackAt, hfrozen]
  · intro fl channel x
    rfl
  · intro numChannels n input channel x
    rw [hblock numChannels n input]

/-- Witness buffer for C2: a frozen two-channel buffer. -/
def c2Buffer : CircularBuffer :=
  { data := fun c i => (c : ℝ) + (i : ℝ), sr := 44100, maxSamples := 8,
    activeSamples := 4, writePos := 2, frozen := true }

/-- Witness: claim C2's theorem applied at a concrete frozen buffer. -/
theorem frozen_buffer_immutable_witness :
    c2Buffer.writeSample 0 5 = c2Buffer
    ∧ writeAdvanceBlock c2Buffer 2 (fun _ _ => 9) 3 = c2Buffer :=
  ⟨(frozen_buffer_immutable c2Buffer rfl).1 0 5,
   (frozen_buffer_immutable c2Buffer rfl).2.2.2.2.1 2 3 (fun _ _ => 9)⟩

/-! Grain envelope (Source/DSP/GrainEnvelope.h). -/

/-- EnvelopeShape enum of GrainEnvelope.h. -/
inductive EnvelopeShape
  | Hanning
  | Gaussian
  | Triangle
  | Trapezoid
deriving DecidableEq

namespace GrainEnvelope

/-- GrainEnvelope::getAmplitude: clamp inputs, rescale attack/decay when their
sum exceeds 1, build the linear attack/sustain/decay ramp, and remap it by the
selected window shape. -/
def getAmplitude (normPos0 attackFrac0 decayFrac0 : ℝ) (shape : EnvelopeShape) : ℝ :=
  let normPos := jlimitR 0 1 normPos0
  let attackFrac := jlimitR 0.01 0.99 attackFrac0
  let decayFrac := jlimitR 0.01 0.99 decayFrac0
  let totalEnv := attackFrac + decayFrac
  let att := if 1 < totalEnv then attackFrac / totalEnv else attackFrac
  let dec := if 1 < totalEnv then decayFrac / totalEnv else decayFrac
  let envGain := if normPos < att then normPos / att
    else if 1 - dec < normPos then (1 - normPos) / dec else 1
  match shape with
  | .Hanning => 0.5 * (1 - Real.cos (Real.pi * envGain))
  | .Gaussian => Real.exp (-0.5 * ((envGain - 1) * (envGain - 1)) / 0.16)
  | .Triangle => envGain
  | .Trapezoid => jlimitR 0 1 (envGain * 1.5)

end GrainEnvelope

/-! Grain (Source/DSP/Grain.h). -/

/-- Per-grain playback state of Grain.h, with the source's field defaults. -/
structure Grain where
  active : Bool := false
  startPos : ℝ := 0
  currentPos : ℝ := 0
  lengthSamples : ℤ := 0
  currentSample : ℤ := 0
  playbackRate : ℝ := 1
  pan : ℝ := 0
  attackFrac : ℝ := 0.25
  decayFrac : ℝ := 0.25
  envShape : EnvelopeShape := .Hanning
  reversed : Bool := false
  gain : ℝ := 1

instance : Inhabited Grain := ⟨{}⟩

namespace Grain

/-- Grain::getNormalisedPosition: currentSample/lengthSamples, 0 when lengthSamples ≤ 0. -/
def getNormalisedPosition (g : Grain) : ℝ :=
  if 0 < g.lengthSamples then ((g.currentSample : ℤ) : ℝ) / ((g.lengthSamples : ℤ) : ℝ) else 0

/-- Grain::getEnvelopeAmplitude. -/
def getEnvelopeAmplitude (g : Grain) : ℝ :=
  GrainEnvelope.getAmplitude g.getNormalisedPosition g.attackFrac g.decayFrac g.envShape

/-- Grain::getReadPosition: startPos ∓ currentSample·playbackRate depending on reverse. -/
def getReadPosition (g : Grain) : ℝ :=
  if g.reversed then g.startPos - ((g.currentSample : ℤ) : ℝ) * g.playbackRate
  else g.startPos + ((g.currentSample : ℤ) : ℝ) * g.playbackRate

/-- Grain::advance: early-exit false when inactive; otherwise increment
currentSample and deactivate (returning false) once it reaches lengthSamples. -/
def advance (g : Grain) : Grain × Bool :=
  if !g.active then (g, false)
  else
    let g1 := { g with currentSample := g.currentSample + 1 }
    if g.lengthSamples ≤ g.currentSample + 1 then ({ g1 with active := false }, false)
    else (g1, true)

/-- Grain::reset: deactivate and zero the lifetime counters, other fields persist. -/
def reset (g : Grain) : Grain :=
  { g with active := false, currentSample := 0, lengthSamples := 0 }

end Grain

/-- C4: advancing an active grain increments currentSample by exactly 1; the
call on which the incremented counter reaches lengthSamples deactivates the
grain and returns false (and only that call); advancing an inactive grain
returns false and changes no field. -/
theorem grain_advance_spec (g : Grain) :
    (g.active = true →
      ((g.advance.1.currentSample = g.currentSample + 1)
        ∧ (g.advance.1.active = false ↔ g.lengthSamples ≤ g.currentSample + 1)
        ∧ (g.advance.2 = false ↔ g.lengthSamples ≤ g.currentSample + 1)))
    ∧ (g.active = false → g.advance = (g, false)) := by
  constructor
  · intro hact
    unfold Grain.advance
    rw [hact]
    by_cases hend : g.lengthSamples ≤ g.currentSample + 1
    · rw [if_neg (by simp), if_pos hend]
      simp [hend]
    · rw [if_neg (by simp), if_neg hend]
      simpa using hend
  · intro hact
    unfold Grain.advance
    rw [hact]
    simp

/-- Witness grain for C4: an active grain one step from its end. -/
def c4Grain : Grain :=
  { active := true, lengthSamples := 3, currentSample := 2 }

/-- Witness: claim C4's theorem applied at concrete active and inactive grains. -/
theorem grain_advance_spec_witness :
    (c4Grain.advance.1.currentSample = c4Grain.currentSample + 1
      ∧ (c4Grain.advance.1.active = false ↔ c4Grain.lengthSamples ≤ c4Grain.currentSample + 1)
      ∧ (c4Grain.advance.2 = false ↔ c4Grain.lengthSamples ≤ c4Grain.currentSample + 1))
    ∧ (c4Grain.advance.1.advance = (c4Grain.advance.1, false)) :=
  ⟨(grain_advance_spec c4Grain).1 rfl,
   (grain_advance_spec c4Grain.advance.1).2 (by
      have h := ((grain_advance_spec c4Grain).1 rfl).2.1.mpr (by decide)
      exact h)⟩

/-! Grain pool (Source/DSP/GrainPool.h), modelled as a list of kMaxGrains slots. -/

namespace GrainPool

/-- GrainPool::acquire: linear scan in slot order; first inactive slot is marked
active with its sample counter reset to 0; nullptr (none) when all are active.
The returned index models the pointer to the acquired slot. -/
def acquire : List Grain → Option (List Grain × ℕ)
  | [] => none
  | g :: rest =>
    if g.active then
      match acquire rest with
      | none => none
      | some (rest', i) => some (g :: rest', i + 1)
    else some (({ g with active := true, currentSample := 0 }) :: rest, 0)

/-- GrainPool::processAll: apply the callback to every active grain, in slot order. -/
def processAll (f : Grain → Grain) (pool : List Grain) : List Grain :=
  pool.map fun g => if g.active then f g else g

/-- GrainPool::getActiveCount. -/
def getActiveCount (pool : List Grain) : ℕ := pool.countP (·.active)

/-- GrainPool::resetAll. -/
def resetAll (pool : List Grain) : List Grain := pool.map Grain.reset

/-- GrainPool's constructor: kMaxGrains default slots, each reset. -/
def initialPool : List Grain :=
  (List.replicate GranularConstants.kMaxGrains ({} : Grain)).map Grain.reset

end GrainPool

/-- One abstract pool operation, for quantifying over operation sequences in C3. -/
inductive PoolOp
  | acq : PoolOp
  | proc : (Grain → Grain) → PoolOp
  | reset : PoolOp

/-- Run one pool operation. -/
def runPoolOp (pool : List Grain) : PoolOp → List Grain
  | .acq =>
      match GrainPool.acquire pool with
      | none => pool
      | some (p, _) => p
  | .proc f => GrainPool.processAll f pool
  | .reset => GrainPool.resetAll pool

/-- Run a sequence of pool operations. -/
def runPoolOps (pool : List Grain) : List PoolOp → List Grain
  | [] => pool
  | op :: ops => runPoolOps (runPoolOp pool op) ops

/-- Acquire preserves the number of slots. -/
lemma acquire_length : ∀ (pool res : List Grain) (idx : ℕ),
    GrainPool.acquire pool = some (res, idx) → res.length = pool.length := by
  intro pool
  induction pool with
  | nil => intro res idx h; simp [GrainPool.acquire] at h
  | cons g rest ih =>
      intro res idx h
      by_cases hact : g.active = true
      · rw [GrainPool.acquire, if_pos hact] at h
        cases hmatch : GrainPool.acquire rest with
        | none => rw [hmatch] at h; simp at h
        | some p =>
            rw [hmatch] at h
            obtain ⟨rest', i⟩ := p
            simp only [Option.some.injEq, Prod.mk.injEq] at h
            obtain ⟨hres, _⟩ := h
            subst hres
            simp [ih rest' i hmatch]
      · rw [GrainPool.acquire, if_neg hact] at h
        simp only [Option.some.injEq, Prod.mk.injEq] at h
        obtain ⟨hres, _⟩ := h
        subst hres
        simp

/-- Acquire returns none exactly when every slot is active. -/
lemma acquire_none_iff (pool : List Grain) :
    GrainPool.acquire pool = none ↔ ∀ g ∈ pool, g.active = true := by
  induction pool with
  | nil => simp [GrainPool.acquire]
  | cons g rest ih =>
      by_cases hact : g.active = true
      · rw [GrainPool.acquire, if_pos hact]
        cases hmatch : GrainPool.acquire rest with
        | none =>
            simp only [List.mem_cons]
            constructor
            · intro _ g' hg'
              rcases hg' with h | h
              · rw [h]; exact hact
              · exact (ih.mp hmatch) g' h
            · intro _; trivial
        | some p =>
            obtain ⟨rest', i⟩ := p
            simp only [List.mem_cons]
            constructor
            · intro h; exact absurd h (by simp)
            · intro hall
              have : GrainPool.acquire rest = none :=
                ih.mpr fun g' hg' => hall g' (Or.inr hg')
              rw [this] at hmatch
              exact absurd hmatch (by simp)
      · rw [GrainPool.acquire, if_neg hact]
        constructor
        · intro h; exact absurd h (by simp)
        · intro hall
          exact absurd (hall g (List.mem_cons_self g rest)) hact

/-- Acquire returns the first inactive slot (in fixed slot order), marked
active with its sample counter reset. -/
lemma acquire_some_spec : ∀ (pool res : List Grain) (idx : ℕ),
    GrainPool.acquire pool = some (res, idx) →
    idx = pool.findIdx (fun g => !g.active)
    ∧ ∃ g, pool[idx]? = some g ∧ g.active = false
        ∧ res = pool.set idx { g with active := true, currentSample := 0 } := by
  intro pool
  induction pool with
  | nil => intro res idx h; simp [GrainPool.acquire] at h
  | cons g rest ih =>
      intro res idx h
      by_cases hact : g.active = true
      · rw [GrainPool.acquire, if_pos hact] at h
        cases hmatch : GrainPool.acquire rest with
        | none => rw [hmatch] at h; simp at h
        | some p =>
            obtain ⟨rest', i⟩ := p
            rw [hmatch] at h
            simp only [Option.some.injEq, Prod.mk.injEq] at h
            obtain ⟨hres, hidx⟩ := h
            obtain ⟨hfind, g', hget, hgact, hset⟩ := ih rest' i hmatch
            refine ⟨?_, g', ?_, hgact, ?_⟩
            · rw [List.findIdx_cons, ← hidx]
              simp [hact, hfind]
            · rw [← hidx]
              simpa using hget
            · rw [← hres, ← hidx]
              simp only [List.set_cons_succ]
              rw [hset]
      · rw [GrainPool.acquire, if_neg hact] at h
        simp only [Option.some.injEq, Prod.mk.injEq] at h
        obtain ⟨hres, hidx⟩ := h
        have hgact : g.active = false := by simpa using hact
        refine ⟨?_, g, ?_, hgact, ?_⟩
        · rw [List.findIdx_cons, ← hidx]
          simp [hgact]
        · rw [← hidx]
          simp
        · rw [← hres, ← hidx]
          simp

/-- Every pool operation preserves the number of slots. -/
lemma runPoolOp_length (pool : List Grain) (op : PoolOp) :
    (runPoolOp pool op).length = pool.length := by
  cases op with
  | acq =>
      cases hmatch : GrainPool.acquire pool with
      | none => simp [runPoolOp, hmatch]
      | some p =>
          obtain ⟨res, i⟩ := p
          simp [runPoolOp, hmatch, acquire_length pool res i hmatch]
  | proc f => simp [runPoolOp, GrainPool.processAll]
  | reset => simp [runPoolOp, GrainPool.resetAll]

/-- Sequences of pool operations preserve the number of slots. -/
lemma runPoolOps_length (ops : List PoolOp) : ∀ pool : List Grain,
    (runPoolOps pool ops).length = pool.length := by
  induction ops with
  | nil => intro pool; rfl
  | cons op ops ih =>
      intro pool
      show (runPoolOps (runPoolOp pool op) ops).length = pool.length
      rw [ih (runPoolOp pool op), runPoolOp_length]

/-- C3: starting from the initial pool, no sequence of acquire / processAll /
resetAll operations ever makes getActiveCount exceed kMaxGrains (64); acquire
returns the no-grain signal exactly when all slots are active; otherwise it
returns the first inactive slot in fixed slot order, marked active with its
sample counter reset to 0. -/
theorem pool_capacity_and_acquire :
    (∀ ops : List PoolOp,
        GrainPool.getActiveCount (runPoolOps GrainPool.initialPool ops)
          ≤ GranularConstants.kMaxGrains)
    ∧ (∀ pool : List Grain, GrainPool.acquire pool = none ↔ ∀ g ∈ pool, g.active = true)
    ∧ (∀ (pool res : List Grain) (idx : ℕ), GrainPool.acquire pool = some (res, idx) →
        idx = pool.findIdx (fun g => !g.active)
        ∧ ∃ g, pool[idx]? = some g ∧ g.active = false
            ∧ res = pool.set idx { g with active := true, currentSample := 0 }) := by
  refine ⟨?_, acquire_none_iff, acquire_some_spec⟩
  intro ops
  calc GrainPool.getActiveCount (runPoolOps GrainPool.initialPool ops)
      ≤ (runPoolOps GrainPool.initialPool ops).length := List.countP_le_length _
    _ = GrainPool.initialPool.length := runPoolOps_length ops _
    _ = GranularConstants.kMaxGrains := by simp [GrainPool.initialPool]

/-- Witness pool for C3: slot 0 active, slot 1 free. -/
def c3DemoPool : List Grain := [{ active := true }, {}]

/-- Result of acquiring from the witness pool. -/
def c3DemoRes : List Grain := [{ active := true }, { active := true, currentSample := 0 }]

/-- Witness: claim C3's theorem applied to a concrete operation sequence and pool. -/
theorem pool_capacity_and_acquire_witness :
    GrainPool.getActiveCount (runPoolOps GrainPool.initialPool [PoolOp.acq])
        ≤ GranularConstants.kMaxGrains
    ∧ (GrainPool.acquire c3DemoPool = none ↔ ∀ g ∈ c3DemoPool, g.active = true)
    ∧ (1 = c3DemoPool.findIdx (fun g => !g.active)
        ∧ ∃ g, c3DemoPool[1]? = some g ∧ g.active = false
            ∧ c3DemoRes = c3DemoPool.set 1 { g with active := true, currentSample := 0 }) :=
  ⟨pool_capacity_and_acquire.1 [PoolOp.acq],
   pool_capacity_and_acquire.2.1 c3DemoPool,
   pool_capacity_and_acquire.2.2 c3DemoPool c3DemoRes 1 rfl⟩

/-! Grain scheduler (Source/DSP/GrainScheduler.h). -/

/-- Scheduler state: the countdown (C++ int, may go negative before reset) and
the cursor into its private random stream. -/
structure SchedulerState where
  samplesUntilNextGrain : ℤ
  randIdx : ℕ

namespace GrainScheduler

/-- Field assignments performed on the acquired grain inside
GrainScheduler::process.  `rand ridx`, `rand (ridx+1)`, `rand (ridx+2)` are the
three nextFloat() draws (position, pitch, pan scatter, in source order). -/
def spawnGrain (sr : ℝ) (circBuffer : CircularBuffer) (rand : ℕ → ℝ) (ridx : ℕ)
    (grainSizeMs position posScatter pitch pitchScatter pan panScatter
     attackFrac decayFrac : ℝ) (envShape : EnvelopeShape) (reverse : Bool)
    (g : Grain) : Grain :=
  let sizeSamples := (grainSizeMs / 1000) * sr
  let bufLen : ℝ := (circBuffer.getActiveLength : ℝ)
  let writePos := circBuffer.getWritePosition
  let lookbackAmount := (position / 100) * bufLen
  let scatterRange := (posScatter / 100) * bufLen * 0.5
  let randomOffset := (rand ridx * 2 - 1) * scatterRange
  let rawPos := (writePos : ℝ) - lookbackAmount + randomOffset
  let pitchRand := (rand (ridx + 1) * 2 - 1) * (pitchScatter / 100) * 12
  let totalPitch := pitch + pitchRand
  let panRand := (rand (ridx + 2) * 2 - 1) * (panScatter / 100)
  { g with
    lengthSamples := max 1 (realTrunc sizeSamples),
    startPos := rfmod (rawPos + bufLen * 2) bufLen,
    playbackRate := (2 : ℝ) ^ (totalPitch / 12),
    pan := jlimitR (-1) 1 (pan + panRand),
    attackFrac := attackFrac / 100,
    decayFrac := decayFrac / 100,
    envShape := envShape,
    reversed := reverse,
    currentSample := 0,
    gain := 1 }

/-- GrainScheduler::process: decrement the countdown; once it reaches zero or
below, reset it to (int)(sampleRate / max(0.1, density)) and attempt one spawn
via GrainPool::acquire — silently doing nothing further when the pool is
exhausted.  Otherwise only the countdown changes. -/
def process (sr : ℝ) (rand : ℕ → ℝ) (st : SchedulerState) (pool : List Grain)
    (circBuffer : CircularBuffer)
    (grainSizeMs density position posScatter pitch pitchScatter pan panScatter
     attackFrac decayFrac : ℝ) (envShape : EnvelopeShape) (reverse : Bool) :
    SchedulerState × List Grain :=
  let c := st.samplesUntilNextGrain - 1
  if c ≤ 0 then
    let intervalSamples := sr / max 0.1 density
    let cd := realTrunc intervalSamples
    match GrainPool.acquire pool with
    | none => ({ samplesUntilNextGrain := cd, randIdx := st.randIdx }, pool)
    | some (pool', i) =>
        ({ samplesUntilNextGrain := cd, randIdx := st.randIdx + 3 },
         pool'.set i (spawnGrain sr circBuffer rand st.randIdx grainSizeMs position posScatter
            pitch pitchScatter pan panScatter attackFrac decayFrac envShape reverse
            (pool'.getD i default)))
  else ({ st with samplesUntilNextGrain := c }, pool)

/-- GrainScheduler::reset. -/
def reset (st : SchedulerState) : SchedulerState :=
  { st with samplesUntilNextGrain := 0 }

end GrainScheduler

/-- C5: whenever the decremented countdown reaches zero or below, the scheduler
resets it to (int)(sampleRate / max(0.1, density)) regardless of pool state;
when the pool is exhausted the spawn is silently dropped — the pool and the
random cursor are untouched — so the next attempt happens one full interval
later; when the decremented countdown stays positive, only the countdown
changes. -/
theorem scheduler_interval_and_exhaustion (sr : ℝ) (rand : ℕ → ℝ) (st : SchedulerState)
    (pool : List Grain) (circBuffer : CircularBuffer)
    (grainSizeMs density position posScatter pitch pitchScatter pan panScatter
     attackFrac decayFrac : ℝ) (envShape : EnvelopeShape) (reverse : Bool) :
    (st.samplesUntilNextGrain - 1 ≤ 0 →
      ((GrainScheduler.process sr rand st pool circBuffer grainSizeMs density position
          posScatter pitch pitchScatter pan panScatter attackFrac decayFrac envShape
          reverse).1.samplesUntilNextGrain = realTrunc (sr / max 0.1 density)
        ∧ (GrainPool.acquire pool = none →
            GrainScheduler.process sr rand st pool circBuffer grainSizeMs density position
              posScatter pitch pitchScatter pan panScatter attackFrac decayFrac envShape
              reverse
            = ({ samplesUntilNextGrain := realTrunc (sr / max 0.1 density),
                 randIdx := st.randIdx }, pool))))
    ∧ (0 < st.samplesUntilNextGrain - 1 →
        GrainScheduler.process sr rand st pool circBuffer grainSizeMs density position
          posScatter pitch pitchScatter pan panScatter attackFrac decayFrac envShape reverse
        = ({ st with samplesUntilNextGrain := st.samplesUntilNextGrain - 1 }, pool)) := by
  constructor
  · intro hc
    constructor
    · rw [GrainScheduler.process]
      rw [if_pos hc]
      cases hmatch : GrainPool.acquire pool with
      | none => rfl
      | some p => obtain ⟨pool', i⟩ := p; rfl
    · intro hnone
      rw [GrainScheduler.process, if_pos hc, hnone]
  · intro hc
    rw [GrainScheduler.process, if_neg (not_le.mpr hc)]

/-- Witness pool for C5: all kMaxGrains slots active (exhausted pool). -/
def c5FullPool : List Grain := List.replicate GranularConstants.kMaxGrains { active := true }

/-- Witness: claim C5's theorem applied at a concrete exhausted-pool spawn tick
and at a concrete quiet tick. -/
theorem scheduler_interval_and_exhaustion_witness :
    (GrainScheduler.process 48000 (fun _ => 0) ⟨0, 0⟩ c5FullPool c7Buffer
        100 8 0 0 0 0 0 0 25 25 EnvelopeShape.Hanning false
      = ({ samplesUntilNextGrain := realTrunc ((48000 : ℝ) / max 0.1 8), randIdx := 0 },
         c5FullPool))
    ∧ (GrainScheduler.process 48000 (fun _ => 0) ⟨5, 0⟩ c5FullPool c7Buffer
        100 8 0 0 0 0 0 0 25 25 EnvelopeShape.Hanning false
      = ({ samplesUntilNextGrain := 4, randIdx := 0 }, c5FullPool)) :=
  ⟨((scheduler_interval_and_exhaustion 48000 (fun _ => 0) ⟨0, 0⟩ c5FullPool c7Buffer
      100 8 0 0 0 0 0 0 25 25 EnvelopeShape.Hanning false).1 (by decide)).2 rfl,
   (scheduler_interval_and_exhaustion 48000 (fun _ => 0) ⟨5, 0⟩ c5FullPool c7Buffer
      100 8 0 0 0 0 0 0 25 25 EnvelopeShape.Hanning false).2 (by decide)⟩

/-! Post-processing chain (Source/DSP/PostProcessor.h). -/

/-- Real.tanh is strictly below 1. -/
lemma real_tanh_lt_one (x : ℝ) : Real.tanh x < 1 := by
  rw [Real.tanh_eq_sinh_div_cosh, div_lt_one (Real.cosh_pos x)]
  exact Real.sinh_lt_cosh x

/-- Real.tanh is strictly above −1. -/
lemma neg_one_lt_real_tanh (x : ℝ) : -1 < Real.tanh x := by
  have h := real_tanh_lt_one (-x)
  rw [Real.tanh_neg] at h
  linarith

/-- Filter mode used by PostProcessor for its StateVariableTPTFilter instances. -/
inductive SVFType
  | highpass
  | lowpass

/-- State of one juce::dsp::StateVariableTPTFilter (external JUCE library
dependency of PostProcessor.h): cutoff frequency plus per-channel integrator
states s1, s2.  Modelled from the JUCE implementation: with
g = tan(π·fc/fs), R2 = 1/Q (default resonance Q = 1/√2, so R2 = √2) and
h = 1/(1 + R2·g + g²), each sample computes yHP = h·(x − s1·(g+R2) − s2),
yBP = yHP·g + s1, s1 ← yHP·g + yBP, yLP = yBP·g + s2, s2 ← yBP·g + yLP. -/
structure SVFilter where
  cutoff : ℝ
  s1 : ℕ → ℝ
  s2 : ℕ → ℝ

namespace SVFilter

/-- TPT warped gain g = tan(π·cutoff/sampleRate). -/
def gCoef (f : SVFilter) (sampleRate : ℝ) : ℝ := Real.tan (Real.pi * f.cutoff / sampleRate)

/-- R2 = 1/Q for the JUCE default resonance Q = 1/√2. -/
def R2 : ℝ := Real.sqrt 2

/-- Normalisation coefficient h = 1/(1 + R2·g + g²). -/
def hCoef (f : SVFilter) (sampleRate : ℝ) : ℝ :=
  1 / (1 + R2 * gCoef f sampleRate + gCoef f sampleRate * gCoef f sampleRate)

/-- One processSample step: new (s1, s2) and the (yHP, yBP, yLP) outputs. -/
def step (gv hv x s1 s2 : ℝ) : (ℝ × ℝ) × ℝ × ℝ × ℝ :=
  let yHP := hv * (x - s1 * (gv + R2) - s2)
  let yBP := yHP * gv + s1
  let s1n := yHP * gv + yBP
  let yLP := yBP * gv + s2
  let s2n := yBP * gv + yLP
  ((s1n, s2n), yHP, yBP, yLP)

/-- Integrator state before sample s of a per-channel run. -/
def stateAt (gv hv : ℝ) (x : ℕ → ℝ) (s10 s20 : ℝ) : ℕ → ℝ × ℝ
  | 0 => (s10, s20)
  | s + 1 =>
      (step gv hv (x s) (stateAt gv hv x s10 s20 s).1 (stateAt gv hv x s10 s20 s).2).1

/-- Output at sample s for the selected filter type. -/
def outAt (gv hv : ℝ) (x : ℕ → ℝ) (s10 s20 : ℝ) (ty : SVFType) (s : ℕ) : ℝ :=
  let st := stateAt gv hv x s10 s20 s
  let o := (step gv hv (x s) st.1 st.2).2
  match ty with
  | .highpass => o.1
  | .lowpass => o.2.2

/-- Process a whole block in place (numCh channels, n samples), as
filter.process(ProcessContextReplacing) does in the source. -/
def processBlock (f : SVFilter) (sampleRate : ℝ) (ty : SVFType) (numCh n : ℕ)
    (block : ℕ → ℕ → ℝ) : SVFilter × (ℕ → ℕ → ℝ) :=
  let gv := gCoef f sampleRate
  let hv := hCoef f sampleRate
  ({ f with
     s1 := fun ch => if ch < numCh
        then (stateAt gv hv (fun s => block ch s) (f.s1 ch) (f.s2 ch) n).1 else f.s1 ch,
     s2 := fun ch => if ch < numCh
        then (stateAt gv hv (fun s => block ch s) (f.s1 ch) (f.s2 ch) n).2 else f.s2 ch },
   fun ch s => if ch < numCh ∧ s < n
      then outAt gv hv (fun s => block ch s) (f.s1 ch) (f.s2 ch) ty s else block ch s)

/-- juce reset(): zero the integrator state, keep the cutoff. -/
def reset (f : SVFilter) : SVFilter := { f with s1 := fun _ => 0, s2 := fun _ => 0 }

end SVFilter

/-- PostProcessor state: two filters, a dampening filter, per-channel DC-blocker
history, and the shimmer delay line with its write cursor and fixed length. -/
structure PostState where
  sampleRate : ℝ
  numChannels : ℕ
  highPassFilter : SVFilter
  lowPassFilter : SVFilter
  shimmerDampen : SVFilter
  dcBlockerX : ℕ → ℝ
  dcBlockerY : ℕ → ℝ
  shimmerBuffer : ℕ → ℕ → ℝ
  shimmerWritePos : ℕ
  shimmerDelaySamples : ℕ

/-- DC-blocker output sequence y[n] = x[n] − x[n−1] + R·y[n−1], R = 0.995,
seeded by the carried per-channel history (xPrev, yPrev). -/
def dcBlockSeq (x : ℕ → ℝ) (xP yP : ℝ) : ℕ → ℝ
  | 0 => x 0 - xP + 0.995 * yP
  | s + 1 => x (s + 1) - x s + 0.995 * dcBlockSeq x xP yP s

/-- Final xPrev history after n samples. -/
def dcFinalX (x : ℕ → ℝ) (xP : ℝ) : ℕ → ℝ
  | 0 => xP
  | n + 1 => x n

/-- Final yPrev history after n samples. -/
def dcFinalY (x : ℕ → ℝ) (xP yP : ℝ) : ℕ → ℝ
  | 0 => yP
  | n + 1 => dcBlockSeq x xP yP n

/-- PostProcessor::applyDCBlocker: per buffer channel (skipping channels beyond
the prepared history size), filter the block and persist the history. -/
def applyDCBlocker (st : PostState) (numCh n : ℕ) (block : ℕ → ℕ → ℝ) :
    PostState × (ℕ → ℕ → ℝ) :=
  ({ st with
     dcBlockerX := fun ch => if ch < numCh ∧ ch < st.numChannels
        then dcFinalX (fun s => block ch s) (st.dcBlockerX ch) n else st.dcBlockerX ch,
     dcBlockerY := fun ch => if ch < numCh ∧ ch < st.numChannels
        then dcFinalY (fun s => block ch s) (st.dcBlockerX ch) (st.dcBlockerY ch) n
        else st.dcBlockerY ch },
   fun ch s => if ch < numCh ∧ ch < st.numChannels ∧ s < n
      then dcBlockSeq (fun s => block ch s) (st.dcBlockerX ch) (st.dcBlockerY ch) s
      else block ch s)

/-- Stereo width stage (mid/side), active only when the block has ≥ 2 channels. -/
def widthStage (numCh n : ℕ) (stereoWidth : ℝ) (block : ℕ → ℕ → ℝ) : ℕ → ℕ → ℝ :=
  if 2 ≤ numCh then
    fun ch s =>
      if s < n then
        let left := block 0 s
        let right := block 1 s
        let mid := (left + right) * 0.5
        let side := (left - right) * 0.5
        let widthFactor := stereoWidth / 100
        if ch = 0 then mid + side * widthFactor
        else if ch = 1 then mid - side * widthFactor
        else block ch s
      else block ch s
  else block

/-- Shimmer delayed-tap read: fixed offset of half the delay length behind the
write cursor, wrapped positive, then linear interpolation between the two
neighbouring slots ((int) cast, int %, and std::floor exactly as the source). -/
def shimmerReadSample (buf : ℕ → ℕ → ℝ) (len wp ch : ℕ) : ℝ :=
  let readOffset : ℝ := (len : ℝ) * 0.5
  let readPosF : ℝ := (wp : ℝ) - readOffset
  let wrappedPos := if readPosF < 0 then readPosF + (len : ℝ) else readPosF
  let readIdx0 := ((realTrunc wrappedPos).tmod (len : ℤ)).toNat
  let readIdx1 := (readIdx0 + 1) % len
  let frac := wrappedPos - ((⌊wrappedPos⌋ : ℤ) : ℝ)
  let s0 := buf ch readIdx0
  let s1 := buf ch readIdx1
  s0 + frac * (s1 - s0)

/-- Shimmer write-cursor position before sample s. -/
def shimmerWpAt (len wp0 : ℕ) : ℕ → ℕ
  | 0 => wp0
  | s + 1 => (shimmerWpAt len wp0 s + 1) % len

/-- Shimmer delay buffer before sample s: at each sample every channel
ch < min(numCh, 2) stores 0.7·current + shimSample·mix·0.2 into its slot at the
write cursor. -/
def shimmerBufAt (mix : ℝ) (len numCh : ℕ) (blockIn : ℕ → ℕ → ℝ) (buf0 : ℕ → ℕ → ℝ)
    (wp0 : ℕ) : ℕ → ℕ → ℕ → ℝ
  | 0 => buf0
  | s + 1 =>
      let b := shimmerBufAt mix len numCh blockIn buf0 wp0 s
      let wp := shimmerWpAt len wp0 s
      fun c i =>
        if c < min numCh 2 ∧ i = wp
        then blockIn c s * 0.7 + shimmerReadSample b len wp c * mix * 0.2
        else b c i

/-- Shimmer mixed output block: each in-range sample gains the delayed tap
scaled by mix·0.3. -/
def shimmerOutBlock (mix : ℝ) (len numCh n wp0 : ℕ) (blockIn buf0 : ℕ → ℕ → ℝ) :
    ℕ → ℕ → ℝ := fun ch s =>
  if ch < min numCh 2 ∧ s < n then
    blockIn ch s +
      shimmerReadSample (shimmerBufAt mix len numCh blockIn buf0 wp0 s) len
        (shimmerWpAt len wp0 s) ch * mix * 0.3
  else blockIn ch s

/-- Shimmer stage of PostProcessor::process: runs only when
shimmerAmount > 0.001 and the prepared delay length is positive; mixes the
delayed tap, updates the delay buffer and cursor, then runs the dampening
low-pass over the whole block. -/
def shimmerStage (st : PostState) (numCh n : ℕ) (block : ℕ → ℕ → ℝ)
    (shimmerAmount : ℝ) : PostState × (ℕ → ℕ → ℝ) :=
  if 0.001 < shimmerAmount ∧ 0 < st.shimmerDelaySamples then
    let shimMix := shimmerAmount / 100
    let len := st.shimmerDelaySamples
    let outB := shimmerOutBlock shimMix len numCh n st.shimmerWritePos block st.shimmerBuffer
    let dampRes := st.shimmerDampen.processBlock st.sampleRate .lowpass numCh n outB
    ({ st with
       shimmerBuffer := shimmerBufAt shimMix len numCh block st.shimmerBuffer st.shimmerWritePos n,
       shimmerWritePos := shimmerWpAt len st.shimmerWritePos n,
       shimmerDampen := dampRes.1 },
     dampRes.2)
  else (st, block)

/-- PostProcessor::applySoftClip: tanh on every channel and sample of the block. -/
def applySoftClip (numCh n : ℕ) (block : ℕ → ℕ → ℝ) : ℕ → ℕ → ℝ :=
  fun ch s => if ch < numCh ∧ s < n then Real.tanh (block ch s) else block ch s

namespace PostProcessor

/-- PostProcessor::process: DC blocker, cutoff updates, high-pass then low-pass
filtering, stereo width, optional shimmer, unconditional soft clip.  The
in-place buffer of the source becomes a block function passed stage to stage. -/
def process (st : PostState) (numCh n : ℕ) (block : ℕ → ℕ → ℝ)
    (lowCutFreq highCutFreq stereoWidth shimmerAmount : ℝ) :
    PostState × (ℕ → ℕ → ℝ) :=
  let dcRes := applyDCBlocker st numCh n block
  let hp : SVFilter := { dcRes.1.highPassFilter with cutoff := lowCutFreq }
  let lp : SVFilter := { dcRes.1.lowPassFilter with cutoff := highCutFreq }
  let hpRes := hp.processBlock st.sampleRate .highpass numCh n dcRes.2
  let lpRes := lp.processBlock st.sampleRate .lowpass numCh n hpRes.2
  let b4 := widthStage numCh n stereoWidth lpRes.2
  let shimRes := shimmerStage
    { dcRes.1 with highPassFilter := hpRes.1, lowPassFilter := lpRes.1 } numCh n b4 shimmerAmount
  (shimRes.1, applySoftClip numCh n shimRes.2)

/-- PostProcessor::reset: clear filter states, shimmer buffer and cursor, and
DC-blocker history (cutoffs persist, as in juce filter reset()). -/
def reset (st : PostState) : PostState :=
  { st with
    highPassFilter := st.highPassFilter.reset,
    lowPassFilter := st.lowPassFilter.reset,
    shimmerDampen := st.shimmerDampen.reset,
    shimmerBuffer := fun _ _ => 0,
    shimmerWritePos := 0,
    dcBlockerX := fun _ => 0,
    dcBlockerY := fun _ => 0 }

end PostProcessor

/-- C6: after PostProcessor::process every output sample within the block is
tanh of the pre-clip value — the soft clip runs unconditionally on every
channel and sample — and therefore lies strictly within (−1, 1), whatever the
input magnitude and whatever the earlier stages produced. -/
theorem postprocess_softclip_bounds (st : PostState) (numCh n : ℕ) (block : ℕ → ℕ → ℝ)
    (lowCutFreq highCutFreq stereoWidth shimmerAmount : ℝ) (ch s : ℕ)
    (hch : ch < numCh) (hs : s < n) :
    (∃ y, (PostProcessor.process st numCh n block lowCutFreq highCutFreq stereoWidth
        shimmerAmount).2 ch s = Real.tanh y)
    ∧ -1 < (PostProcessor.process st numCh n block lowCutFreq highCutFreq stereoWidth
        shimmerAmount).2 ch s
    ∧ (PostProcessor.process st numCh n block lowCutFreq highCutFreq stereoWidth
        shimmerAmount).2 ch s < 1 := by
  have hform : ∀ B : ℕ → ℕ → ℝ, applySoftClip numCh n B ch s = Real.tanh (B ch s) := by
    intro B
    rw [applySoftClip, if_pos ⟨hch, hs⟩]
  have hout : (PostProcessor.process st numCh n block lowCutFreq highCutFreq stereoWidth
      shimmerAmount).2 ch s
      = applySoftClip numCh n
          (shimmerStage
            { (applyDCBlocker st numCh n block).1 with
              highPassFilter := (SVFilter.processBlock
                { (applyDCBlocker st numCh n block).1.highPassFilter with cutoff := lowCutFreq }
                st.sampleRate .highpass numCh n (applyDCBlocker st numCh n block).2).1,
              lowPassFilter := (SVFilter.processBlock
                { (applyDCBlocker st numCh n block).1.lowPassFilter with cutoff := highCutFreq }
                st.sampleRate .lowpass numCh n
                ((SVFilter.processBlock
                  { (applyDCBlocker st numCh n block).1.highPassFilter with cutoff := lowCutFreq }
                  st.sampleRate .highpass numCh n (applyDCBlocker st numCh n block).2).2)).1 }
            numCh n
            (widthStage numCh n stereoWidth
              ((SVFilter.processBlock
                { (applyDCBlocker st numCh n block).1.lowPassFilter with cutoff := highCutFreq }
                st.sampleRate .lowpass numCh n
                ((SVFilter.processBlock
                  { (applyDCBlocker st numCh n block).1.highPassFilter with cutoff := lowCutFreq }
                  st.sampleRate .highpass numCh n (applyDCBlocker st numCh n block).2).2)).2))
            shimmerAmount).2 ch s := rfl
  rw [hout, hform]
  exact ⟨⟨_, rfl⟩, neg_one_lt_real_tanh _, real_tanh_lt_one _⟩

/-- Witness state for the PostProcessor theorems. -/
def cPostState : PostState :=
  { sampleRate := 44100, numChannels := 2,
    highPassFilter := ⟨20, fun _ => 0, fun _ => 0⟩,
    lowPassFilter := ⟨20000, fun _ => 0, fun _ => 0⟩,
    shimmerDampen := ⟨8000, fun _ => 0, fun _ => 0⟩,
    dcBlockerX := fun _ => 0, dcBlockerY := fun _ => 0,
    shimmerBuffer := fun _ _ => 0, shimmerWritePos := 0, shimmerDelaySamples := 2 }

/-- Witness: claim C6's theorem applied at a concrete state and block. -/
theorem postprocess_softclip_bounds_witness :
    -1 < (PostProcessor.process cPostState 1 1 (fun _ _ => 100) 20 20000 100 0).2 0 0
    ∧ (PostProcessor.process cPostState 1 1 (fun _ _ => 100) 20 20000 100 0).2 0 0 < 1 :=
  ⟨(postprocess_softclip_bounds cPostState 1 1 (fun _ _ => 100) 20 20000 100 0 0 0
      (by decide) (by decide)).2.1,
   (postprocess_softclip_bounds cPostState 1 1 (fun _ _ => 100) 20 20000 100 0 0 0
      (by decide) (by decide)).2.2⟩

/-- Shimmer delay buffer for the C8 counterexample: a single 1.0 in channel 0,
slot 1 (the slot the fixed half-length tap reads). -/
def c8ShimBuf : ℕ → ℕ → ℝ := fun c i => if c = 0 ∧ i = 1 then 1 else 0

/-- PostProcessor state for the C8 counterexample. -/
def c8State : PostState :=
  { sampleRate := 44100, numChannels := 1,
    highPassFilter := ⟨20, fun _ => 0, fun _ => 0⟩,
    lowPassFilter := ⟨20000, fun _ => 0, fun _ => 0⟩,
    shimmerDampen := ⟨8000, fun _ => 0, fun _ => 0⟩,
    dcBlockerX := fun _ => 0, dcBlockerY := fun _ => 0,
    shimmerBuffer := c8ShimBuf, shimmerWritePos := 0, shimmerDelaySamples := 2 }

/-- Silent input block for the C8 counterexample. -/
def c8Block : ℕ → ℕ → ℝ := fun _ _ => 0

/-- The delayed tap of the counterexample state reads exactly the stored 1.0. -/
lemma c8_read_value : shimmerReadSample c8ShimBuf 2 0 0 = 1 := by
  have h2 : ((realTrunc (1 : ℝ)).tmod 2).toNat = 1 := by
    rw [realTrunc, if_pos (by norm_num : (0 : ℝ) ≤ 1), Int.floor_one]
    decide
  simp only [shimmerReadSample, c8ShimBuf]
  norm_num [h2, Int.floor_one]

/-- C8 counterexample: at shimmer amount 1/2000 (which is > 0) the shimmer
stage does not run — the signal and the delay state pass through unchanged —
even though the delayed tap is nonzero, so the claimed mixed output
(signal + tap·(amount/100)·0.3) differs from the actual output. -/
theorem shimmer_stage_zero_counterexample :
    (0 : ℝ) < 1 / 2000
    ∧ shimmerStage c8State 1 1 c8Block (1 / 2000) = (c8State, c8Block)
    ∧ c8Block 0 0 + shimmerReadSample c8State.shimmerBuffer c8State.shimmerDelaySamples
        c8State.shimmerWritePos 0 * ((1 / 2000) / 100) * 0.3 ≠ c8Block 0 0 := by
  refine ⟨by norm_num, ?_, ?_⟩
  · rw [shimmerStage, if_neg]
    rintro ⟨h, -⟩
    norm_num at h
  · show (0 : ℝ) + shimmerReadSample c8ShimBuf 2 0 0 * ((1 / 2000) / 100) * 0.3 ≠ 0
    rw [c8_read_value]
    norm_num

/-- C8 amended: the shimmer stage runs iff the shimmer amount exceeds 0.001
(and the prepared delay length is positive; prepare makes it positive for any
real sample rate); when it runs, each in-range sample has the delayed tap
(read at a fixed offset of half the delay length, linearly interpolated) added
scaled by (amount/100)·0.3, the delay slot under the write cursor becomes
0.7·current + tap·(amount/100)·0.2, and the dampening low-pass then runs over
the block; when the amount is ≤ 0.001 the signal and the shimmer delay state
pass through unchanged. -/
theorem shimmer_stage_threshold_amended (st : PostState) (numCh n : ℕ)
    (block : ℕ → ℕ → ℝ) (amt : ℝ) :
    (¬(0.001 < amt ∧ 0 < st.shimmerDelaySamples) →
        shimmerStage st numCh n block amt = (st, block))
    ∧ (0.001 < amt → 0 < st.shimmerDelaySamples →
        ((shimmerStage st numCh n block amt).1.shimmerBuffer
            = shimmerBufAt (amt / 100) st.shimmerDelaySamples numCh block
                st.shimmerBuffer st.shimmerWritePos n
          ∧ (shimmerStage st numCh n block amt).1.shimmerWritePos
            = shimmerWpAt st.shimmerDelaySamples st.shimmerWritePos n
          ∧ (shimmerStage st numCh n block amt).2
            = (st.shimmerDampen.processBlock st.sampleRate .lowpass numCh n
                (shimmerOutBlock (amt / 100) st.shimmerDelaySamples numCh n
                  st.shimmerWritePos block st.shimmerBuffer)).2
          ∧ (∀ ch s, ch < min numCh 2 → s < n →
              shimmerOutBlock (amt / 100) st.shimmerDelaySamples numCh n
                  st.shimmerWritePos block st.shimmerBuffer ch s
                = block ch s
                  + shimmerReadSample
                      (shimmerBufAt (amt / 100) st.shimmerDelaySamples numCh block
                        st.shimmerBuffer st.shimmerWritePos s)
                      st.shimmerDelaySamples
                      (shimmerWpAt st.shimmerDelaySamples st.shimmerWritePos s) ch
                    * (amt / 100) * 0.3)
          ∧ (∀ ch s, ch < min numCh 2 → s < n →
              shimmerBufAt (amt / 100) st.shimmerDelaySamples numCh block st.shimmerBuffer
                  st.shimmerWritePos (s + 1) ch
                  (shimmerWpAt st.shimmerDelaySamples st.shimmerWritePos s)
                = block ch s * 0.7
                  + shimmerReadSample
                      (shimmerBufAt (amt / 100) st.shimmerDelaySamples numCh block
                        st.shimmerBuffer st.shimmerWritePos s)
                      st.shimmerDelaySamples
                      (shimmerWpAt st.shimmerDelaySamples st.shimmerWritePos s) ch
                    * (amt / 100) * 0.2))) := by
  constructor
  · intro h
    rw [shimmerStage, if_neg h]
  · intro hamt hlen
    have hcond : 0.001 < amt ∧ 0 < st.shimmerDelaySamples := ⟨hamt, hlen⟩
    refine ⟨?_, ?_, ?_, ?_, ?_⟩
    · rw [shimmerStage, if_pos hcond]
    · rw [shimmerStage, if_pos hcond]
    · rw [shimmerStage, if_pos hcond]
    · intro ch s hch hs
      rw [shimmerOutBlock, if_pos ⟨hch, hs⟩]
    · intro ch s hch hs
      simp only [shimmerBufAt]
      split
      · rfl
      · next h => exact absurd ⟨hch, by trivial⟩ h

/-- Witness: the amended C8 theorem applied concretely on both sides of the
threshold. -/
theorem shimmer_stage_threshold_amended_witness :
    shimmerStage c8State 1 1 c8Block (1 / 5000) = (c8State, c8Block)
    ∧ (shimmerStage c8State 1 1 c8Block (1 / 2)).1.shimmerWritePos
        = shimmerWpAt c8State.shimmerDelaySamples c8State.shimmerWritePos 1 :=
  ⟨(shimmer_stage_threshold_amended c8State 1 1 c8Block (1 / 5000)).1
      (by rintro ⟨h, -⟩; norm_num at h),
   ((shimmer_stage_threshold_amended c8State 1 1 c8Block (1 / 2)).2
      (by norm_num) (by decide)).2.1⟩

/-! LFO modulator (Source/DSP/LFOModulator.h). -/

/-- LFOShape enum. -/
inductive LFOShape
  | Sine
  | Triangle
  | Square
  | SampleAndHold
deriving DecidableEq

/-- LFOTarget enum (GranularEngine switches on it per sample). -/
inductive LFOTarget
  | Size
  | Position
  | Pitch
  | Pan
  | Filter
deriving DecidableEq

/-- LFO state: phase, sample-and-hold value, trigger flag, and the cursor into
the LFO's private random stream. -/
structure LFOState where
  phase : ℝ
  currentSHValue : ℝ
  shTriggered : Bool
  randIdx : ℕ

namespace LFOModulator

/-- LFOModulator::process: advance the phase by rate/sr, wrap past 1 flagging a
sample-and-hold trigger, then produce the value for the selected shape. -/
def process (sr : ℝ) (rand : ℕ → ℝ) (st : LFOState) (rate : ℝ) (shape : LFOShape) :
    ℝ × LFOState :=
  let phase1 := st.phase + rate / sr
  let wrapped : Bool := decide (1 ≤ phase1)
  let phase2 := if wrapped then phase1 - 1 else phase1
  let trig := if wrapped then true else st.shTriggered
  match shape with
  | .Sine => (Real.sin (phase2 * (2 * Real.pi)),
      { st with phase := phase2, shTriggered := trig })
  | .Triangle => (2 * |2 * phase2 - 1| - 1,
      { st with phase := phase2, shTriggered := trig })
  | .Square => ((if phase2 < 0.5 then 1 else -1),
      { st with phase := phase2, shTriggered := trig })
  | .SampleAndHold =>
      if trig then
        let v := rand st.randIdx * 2 - 1
        (v, { phase := phase2, currentSHValue := v, shTriggered := false,
              randIdx := st.randIdx + 1 })
      else (st.currentSHValue, { st with phase := phase2, shTriggered := trig })

/-- LFOModulator::reset (the random generator persists). -/
def reset (st : LFOState) : LFOState :=
  { st with phase := 0, currentSHValue := 0, shTriggered := false }

end LFOModulator

/-! Granular engine orchestration (Source/DSP/GranularEngine.h). -/

/-- Block-rate parameter snapshot (the apvts values read once per block by
GranularEngine::process; the parameter store itself is an external
collaborator). -/
structure Params where
  grainSize : ℝ
  grainDensity : ℝ
  grainPosition : ℝ
  grainPitch : ℝ
  grainPan : ℝ
  posScatter : ℝ
  pitchScatter : ℝ
  panScatter : ℝ
  grainAttack : ℝ
  grainDecay : ℝ
  envelopeShape : EnvelopeShape
  freeze : Bool
  reverse : Bool
  feedback : ℝ
  shimmer : ℝ
  lowCut : ℝ
  highCut : ℝ
  lfoRate : ℝ
  lfoDepth : ℝ
  lfoShape : LFOShape
  lfoTarget : LFOTarget
  stereoWidth : ℝ
  outputLevel : ℝ
  dryWet : ℝ
  bufferLength : ℝ

/-- Per-sample loop state of GranularEngine::process. -/
structure LoopState where
  buffer : CircularBuffer
  pool : List Grain
  sched : SchedulerState
  lfo : LFOState

/-- Block-rate inputs of one GranularEngine::process call: sample rate,
parameter snapshot, channel count, the two random streams and the input block. -/
structure BlockInputs where
  sr : ℝ
  p : Params
  numCh : ℕ
  schedRand : ℕ → ℝ
  lfoRand : ℕ → ℝ
  input : ℕ → ℕ → ℝ

/-- The grain-mixing visitor of GranularEngine::process (pool.processAll body):
for each active grain read both channels at its read position, apply
envelope·gain and equal-power pan, accumulate into the stereo mix, advance the
grain, and count it.  Returns (updated grains, mixL, mixR, activeGrainCount). -/
def mixGrains (buf : CircularBuffer) (numCh : ℕ) : List Grain → List Grain × ℝ × ℝ × ℕ
  | [] => ([], 0, 0, 0)
  | g :: rest =>
    let tail := mixGrains buf numCh rest
    if g.active then
      let readPos := g.getReadPosition
      let envAmp := g.getEnvelopeAmplitude
      let rawL := buf.readSample 0 readPos
      let rawR := if 1 < numCh then buf.readSample 1 readPos else rawL
      let sampleL := rawL * (envAmp * g.gain)
      let sampleR := rawR * (envAmp * g.gain)
      let panAngle := (g.pan + 1) * 0.5
      let panL := Real.cos (panAngle * (Real.pi / 2))
      let panR := Real.sin (panAngle * (Real.pi / 2))
      (g.advance.1 :: tail.1, sampleL * panL + tail.2.1, sampleR * panR + tail.2.2.1,
       tail.2.2.2 + 1)
    else (g :: tail.1, tail.2.1, tail.2.2.1, tail.2.2.2)

/-- One iteration of the per-sample loop of GranularEngine::process: record the
pre-write position (via LoopState.buffer.writePos of the incoming state), write
the input sample on every channel, advance the write head, run the LFO and
apply it to the selected target, clamp the modulated size and position, run the
scheduler, then mix and advance all active grains with sqrt-count
normalisation.  Returns the new loop state and the (mixL, mixR) output. -/
def engineStep (B : BlockInputs) (st : LoopState) (inp : ℕ → ℝ) : LoopState × ℝ × ℝ :=
  let buf2 := (writeInputChannels st.buffer B.numCh inp).advanceWritePosition
  let lfoRes := LFOModulator.process B.sr B.lfoRand st.lfo B.p.lfoRate B.p.lfoShape
  let lfoValue := lfoRes.1 * (B.p.lfoDepth / 100)
  let modGrainSize0 :=
    match B.p.lfoTarget with
    | .Size => B.p.grainSize * (1 + lfoValue * 0.5)
    | _ => B.p.grainSize
  let modPosition0 :=
    match B.p.lfoTarget with
    | .Position => B.p.grainPosition + lfoValue * 30
    | _ => B.p.grainPosition
  let modPitch :=
    match B.p.lfoTarget with
    | .Pitch => B.p.grainPitch + lfoValue * 12
    | _ => B.p.grainPitch
  let modPan :=
    match B.p.lfoTarget with
    | .Pan => jlimitR (-1) 1 (B.p.grainPan + lfoValue)
    | _ => B.p.grainPan
  let modGrainSize := jlimitR GranularConstants.kMinGrainSizeMs
    GranularConstants.kMaxGrainSizeMs modGrainSize0
  let modPosition := jlimitR 0 100 modPosition0
  let schedRes := GrainScheduler.process B.sr B.schedRand st.sched st.pool buf2
    modGrainSize B.p.grainDensity modPosition B.p.posScatter modPitch B.p.pitchScatter
    modPan B.p.panScatter B.p.grainAttack B.p.grainDecay B.p.envelopeShape B.p.reverse
  let mixRes := mixGrains buf2 B.numCh schedRes.2
  let count := mixRes.2.2.2
  let mixL := if 1 < count then mixRes.2.1 * (1 / Real.sqrt (count : ℝ)) else mixRes.2.1
  let mixR := if 1 < count then mixRes.2.2.1 * (1 / Real.sqrt (count : ℝ)) else mixRes.2.2.1
  ({ buffer := buf2, pool := mixRes.1, sched := schedRes.1, lfo := lfoRes.2 }, mixL, mixR)

/-- Loop state before sample s of the block. -/
def engineLoop (B : BlockInputs) (st0 : LoopState) : ℕ → LoopState
  | 0 => st0
  | s + 1 => (engineStep B (engineLoop B st0 s) (fun ch => B.input ch s)).1

/-- writePositions[s]: the write position recorded for sample s BEFORE that
sample's input is written (GranularEngine.h line 140). -/
def recordedPos (B : BlockInputs) (st0 : LoopState) (s : ℕ) : ℕ :=
  (engineLoop B st0 s).buffer.writePos

/-- The (mixL, mixR) grain mix produced at sample s. -/
def mixAt (B : BlockInputs) (st0 : LoopState) (s : ℕ) : ℝ × ℝ :=
  (engineStep B (engineLoop B st0 s) (fun ch => B.input ch s)).2

/-- The grainOutput block: channel 0 takes mixL, channel 1 (when present) takes
mixR, other channels stay cleared. -/
def grainBlock (B : BlockInputs) (st0 : LoopState) : ℕ → ℕ → ℝ := fun ch s =>
  if ch = 0 then (mixAt B st0 s).1
  else if ch = 1 ∧ 1 < B.numCh then (mixAt B st0 s).2
  else 0

/-- The channel loop of the feedback write-back: writeFeedbackAt on channels
0..numCh−1 at one recorded position. -/
def writeFeedbackChannels (b : CircularBuffer) (numCh : ℕ) (pos : ℤ) (vals : ℕ → ℝ) :
    CircularBuffer :=
  match numCh with
  | 0 => b
  | k + 1 => (writeFeedbackChannels b k pos vals).writeFeedbackAt k pos (vals k)

/-- The feedback write-back pass over the first n samples: each sample s adds
post[ch][s]·feedbackAmt at the recorded position of s. -/
def feedbackPhase (numCh : ℕ) (recorded : ℕ → ℕ) (post : ℕ → ℕ → ℝ) (fbAmt : ℝ)
    (b : CircularBuffer) : ℕ → CircularBuffer
  | 0 => b
  | s + 1 => writeFeedbackChannels (feedbackPhase numCh recorded post fbAmt b s) numCh
      ((recorded s : ℕ) : ℤ) (fun ch => post ch s * fbAmt)

/-- Engine state (GranularEngine members that the claims concern; the
smoothers, RMS meters and the visual snapshot — pure consumers of this state
feeding the host buffer and the UI — are not modelled). -/
structure EngineState where
  sr : ℝ
  circularBuffer : CircularBuffer
  pool : List Grain
  scheduler : SchedulerState
  lfo : LFOState
  post : PostState

namespace GranularEngine

/-- Steps (a)–(b) of GranularEngine::process: apply buffer length and freeze
state before the per-sample loop. -/
def initialLoopState (e : EngineState) (p : Params) : LoopState :=
  { buffer := (e.circularBuffer.setBufferLength p.bufferLength).setFrozen p.freeze,
    pool := e.pool, sched := e.scheduler, lfo := e.lfo }

/-- The BlockInputs bundle of one process call. -/
def blockInputs (e : EngineState) (p : Params) (numCh : ℕ)
    (schedRand lfoRand : ℕ → ℝ) (input : ℕ → ℕ → ℝ) : BlockInputs :=
  { sr := e.sr, p := p, numCh := numCh, schedRand := schedRand, lfoRand := lfoRand,
    input := input }

/-- The post-processing of the block's grain mix (step (e)). -/
def postBlock (e : EngineState) (p : Params) (numCh n : ℕ)
    (schedRand lfoRand : ℕ → ℝ) (input : ℕ → ℕ → ℝ) : PostState × (ℕ → ℕ → ℝ) :=
  PostProcessor.process e.post numCh n
    (grainBlock (blockInputs e p numCh schedRand lfoRand input) (initialLoopState e p))
    p.lowCut p.highCut p.stereoWidth p.shimmer

/-- GranularEngine::process: run the per-sample loop over n samples, post-process
the grain mix, then (when feedback exceeds the 0.001 threshold) write the
post-processed mix scaled by the feedback amount back at each sample's recorded
pre-write position.  Returns the new engine state and the processed (wet)
block; the final dry/wet + output-level smoothing into the host buffer and the
visual snapshot are downstream consumers not modelled here. -/
def process (e : EngineState) (p : Params) (numCh n : ℕ)
    (schedRand lfoRand : ℕ → ℝ) (input : ℕ → ℕ → ℝ) : EngineState × (ℕ → ℕ → ℝ) :=
  let B := blockInputs e p numCh schedRand lfoRand input
  let st0 := initialLoopState e p
  let fin := engineLoop B st0 n
  let pr := postBlock e p numCh n schedRand lfoRand input
  let newBuf := if 0.001 < p.feedback
    then feedbackPhase numCh (recordedPos B st0) pr.2 p.feedback fin.buffer n
    else fin.buffer
  ({ e with circularBuffer := newBuf, pool := fin.pool, scheduler := fin.sched,
            lfo := fin.lfo, post := pr.1 }, pr.2)

/-- GranularEngine::reset: pool.resetAll, scheduler.reset, lfo.reset,
postProcessor.reset — the circular buffer is not touched. -/
def reset (e : EngineState) : EngineState :=
  { e with pool := GrainPool.resetAll e.pool,
           scheduler := GrainScheduler.reset e.scheduler,
           lfo := LFOModulator.reset e.lfo,
           post := PostProcessor.reset e.post }

end GranularEngine

/-- C10: GranularEngine::reset deactivates all grains, zeroes the scheduler
countdown, resets the LFO phase (with its sample-and-hold state), and resets
the post-processor (filter states, shimmer buffer and cursor, DC-blocker
history) — while the circular buffer, with its recorded content, write
position, active length and frozen flag, persists entirely unchanged. -/
theorem engine_reset_spec (e : EngineState) :
    (GranularEngine.reset e).circularBuffer = e.circularBuffer
    ∧ (GranularEngine.reset e).circularBuffer.data = e.circularBuffer.data
    ∧ (GranularEngine.reset e).circularBuffer.writePos = e.circularBuffer.writePos
    ∧ (GranularEngine.reset e).circularBuffer.activeSamples = e.circularBuffer.activeSamples
    ∧ (GranularEngine.reset e).circularBuffer.frozen = e.circularBuffer.frozen
    ∧ (GranularEngine.reset e).pool = GrainPool.resetAll e.pool
    ∧ ((GranularEngine.reset e).pool.all fun g => !g.active) = true
    ∧ (GranularEngine.reset e).scheduler.samplesUntilNextGrain = 0
    ∧ (GranularEngine.reset e).lfo.phase = 0
    ∧ (GranularEngine.reset e).lfo.currentSHValue = 0
    ∧ (GranularEngine.reset e).lfo.shTriggered = false
    ∧ (GranularEngine.reset e).post = PostProcessor.reset e.post
    ∧ (GranularEngine.reset e).post.highPassFilter.s1 = (fun _ => 0)
    ∧ (GranularEngine.reset e).post.highPassFilter.s2 = (fun _ => 0)
    ∧ (GranularEngine.reset e).post.lowPassFilter.s1 = (fun _ => 0)
    ∧ (GranularEngine.reset e).post.lowPassFilter.s2 = (fun _ => 0)
    ∧ (GranularEngine.reset e).post.shimmerBuffer = (fun _ _ => 0)
    ∧ (GranularEngine.reset e).post.shimmerWritePos = 0
    ∧ (GranularEngine.reset e).post.dcBlockerX = (fun _ => 0)
    ∧ (GranularEngine.reset e).post.dcBlockerY = (fun _ => 0) := by
  refine ⟨rfl, rfl, rfl, rfl, rfl, rfl, ?_, rfl, rfl, rfl, rfl, rfl, rfl, rfl, rfl, rfl,
    rfl, rfl, rfl, rfl⟩
  simp [GranularEngine.reset, GrainPool.resetAll, List.all_eq_true, Grain.reset]

/-! Preservation lemmas for the per-sample engine loop, used to settle C1. -/

/-- writeSample preserves writePos. -/
lemma writeSample_writePos (b : CircularBuffer) (ch : ℕ) (v : ℝ) :
    (b.writeSample ch v).writePos = b.writePos := by
  rw [CircularBuffer.writeSample]; split <;> rfl

/-- writeSample preserves activeSamples. -/
lemma writeSample_activeSamples (b : CircularBuffer) (ch : ℕ) (v : ℝ) :
    (b.writeSample ch v).activeSamples = b.activeSamples := by
  rw [CircularBuffer.writeSample]; split <;> rfl

/-- writeSample preserves frozen. -/
lemma writeSample_frozen (b : CircularBuffer) (ch : ℕ) (v : ℝ) :
    (b.writeSample ch v).frozen = b.frozen := by
  rw [CircularBuffer.writeSample]; split <;> rfl

/-- The channel-iterated input write preserves writePos. -/
lemma writeInputChannels_writePos (b : CircularBuffer) (numCh : ℕ) (inp : ℕ → ℝ) :
    (writeInputChannels b numCh inp).writePos = b.writePos := by
  induction numCh with
  | zero => rfl
  | succ k ih =>
      show ((writeInputChannels b k inp).writeSample k (inp k)).writePos = b.writePos
      rw [writeSample_writePos, ih]

/-- The channel-iterated input write preserves activeSamples. -/
lemma writeInputChannels_activeSamples (b : CircularBuffer) (numCh : ℕ) (inp : ℕ → ℝ) :
    (writeInputChannels b numCh inp).activeSamples = b.activeSamples := by
  induction numCh with
  | zero => rfl
  | succ k ih =>
      show ((writeInputChannels b k inp).writeSample k (inp k)).activeSamples = b.activeSamples
      rw [writeSample_activeSamples, ih]

/-- The channel-iterated input write preserves frozen. -/
lemma writeInputChannels_frozen_pres (b : CircularBuffer) (numCh : ℕ) (inp : ℕ → ℝ) :
    (writeInputChannels b numCh inp).frozen = b.frozen := by
  induction numCh with
  | zero => rfl
  | succ k ih =>
      show ((writeInputChannels b k inp).writeSample k (inp k)).frozen = b.frozen
      rw [writeSample_frozen, ih]

/-- advanceWritePosition preserves activeSamples. -/
lemma advance_activeSamples (b : CircularBuffer) :
    b.advanceWritePosition.activeSamples = b.activeSamples := by
  rw [CircularBuffer.advanceWritePosition]; split <;> rfl

/-- advanceWritePosition preserves frozen. -/
lemma advance_frozen (b : CircularBuffer) :
    b.advanceWritePosition.frozen = b.frozen := by
  rw [CircularBuffer.advanceWritePosition]; split <;> rfl

/-- advanceWritePosition preserves the stored samples. -/
lemma advance_data (b : CircularBuffer) : b.advanceWritePosition.data = b.data := by
  rw [CircularBuffer.advanceWritePosition]; split <;> rfl

/-- advanceWritePosition on an unfrozen buffer increments the write head mod
the active length. -/
lemma advance_writePos (b : CircularBuffer) (hfz : b.frozen = false) :
    b.advanceWritePosition.writePos = (b.writePos + 1) % b.activeSamples := by
  rw [CircularBuffer.advanceWritePosition, if_neg (by simp [hfz])]

/-- writeSample data on an unfrozen buffer. -/
lemma writeSample_data (b : CircularBuffer) (ch : ℕ) (v : ℝ) (hfz : b.frozen = false) :
    (b.writeSample ch v).data = fun c i =>
      if c = ch ∧ i = b.writePos % b.activeSamples then v else b.data c i := by
  rw [CircularBuffer.writeSample, if_neg (by simp [hfz])]

/-- The channel-iterated input write stores inp c at the write position of each
channel below numCh, leaving all other cells untouched. -/
lemma writeInputChannels_data (b : CircularBuffer) (numCh : ℕ) (inp : ℕ → ℝ)
    (hfz : b.frozen = false) :
    (writeInputChannels b numCh inp).data = fun c i =>
      if c < numCh ∧ i = b.writePos % b.activeSamples then inp c else b.data c i := by
  induction numCh with
  | zero =>
      funext c i
      simp [writeInputChannels]
  | succ k ih =>
      show ((writeInputChannels b k inp).writeSample k (inp k)).data = _
      rw [writeSample_data _ _ _ (by rw [writeInputChannels_frozen_pres, hfz]),
        writeInputChannels_writePos, writeInputChannels_activeSamples, ih]
      funext c i
      simp only []
      by_cases h1 : c = k ∧ i = b.writePos % b.activeSamples
      · rw [if_pos h1, if_pos ⟨by omega, h1.2⟩, h1.1]
      · rw [if_neg h1]
        by_cases h2 : c < k ∧ i = b.writePos % b.activeSamples
        · rw [if_pos h2, if_pos ⟨by omega, h2.2⟩]
        · rw [if_neg h2, if_neg ?_]
          intro hcon
          rcases Nat.lt_succ_iff_lt_or_eq.mp hcon.1 with h | h
          · exact h2 ⟨h, hcon.2⟩
          · exact h1 ⟨h, hcon.2⟩

/-- The buffer produced by one engine step is exactly write-then-advance. -/
lemma engineStep_buffer (B : BlockInputs) (st : LoopState) (inp : ℕ → ℝ) :
    (engineStep B st inp).1.buffer
      = (writeInputChannels st.buffer B.numCh inp).advanceWritePosition := rfl

/-- Loop invariants: on an unfrozen initial buffer with in-range write head,
the loop keeps the buffer unfrozen, keeps the active length, and moves the
write head to (wp0 + s) mod L before sample s. -/
lemma engineLoop_invariants (B : BlockInputs) (st0 : LoopState)
    (hfz : st0.buffer.frozen = false) (hwp : st0.buffer.writePos < st0.buffer.activeSamples) :
    ∀ s : ℕ, (engineLoop B st0 s).buffer.frozen = false
      ∧ (engineLoop B st0 s).buffer.activeSamples = st0.buffer.activeSamples
      ∧ (engineLoop B st0 s).buffer.writePos
          = (st0.buffer.writePos + s) % st0.buffer.activeSamples := by
  intro s
  induction s with
  | zero => exact ⟨hfz, rfl, (Nat.mod_eq_of_lt hwp).symm⟩
  | succ s ih =>
      obtain ⟨ihf, iha, ihw⟩ := ih
      have hb : (engineLoop B st0 (s + 1)).buffer
          = (writeInputChannels (engineLoop B st0 s).buffer B.numCh
              (fun ch => B.input ch s)).advanceWritePosition := rfl
      have hfz' : (writeInputChannels (engineLoop B st0 s).buffer B.numCh
          (fun ch => B.input ch s)).frozen = false := by
        rw [writeInputChannels_frozen_pres, ihf]
      refine ⟨?_, ?_, ?_⟩
      · rw [hb, advance_frozen, hfz']
      · rw [hb, advance_activeSamples, writeInputChannels_activeSamples, iha]
      · rw [hb, advance_writePos _ hfz', writeInputChannels_writePos,
          writeInputChannels_activeSamples, ihw, iha, Nat.mod_add_mod]
        rfl

/-- After the per-sample loop has passed sample s, the buffer holds the block's
input for sample s at index wp0 + s (no wrap under the no-wrap hypothesis), and
later loop iterations never overwrite it. -/
lemma engineLoop_data (B : BlockInputs) (st0 : LoopState)
    (hfz : st0.buffer.frozen = false) (n : ℕ)
    (hwpn : st0.buffer.writePos + n ≤ st0.buffer.activeSamples)
    (s ch : ℕ) (hs : s < n) (hch : ch < B.numCh) :
    ∀ m, s < m → m ≤ n →
      (engineLoop B st0 m).buffer.data ch (st0.buffer.writePos + s) = B.input ch s := by
  have hwp : st0.buffer.writePos < st0.buffer.activeSamples := by omega
  have hinv := engineLoop_invariants B st0 hfz hwp
  intro m
  induction m with
  | zero => omega
  | succ m ih =>
      intro hsm hmn
      obtain ⟨ihf, iha, ihw⟩ := hinv m
      have hwpm : (engineLoop B st0 m).buffer.writePos = st0.buffer.writePos + m := by
        rw [ihw]
        exact Nat.mod_eq_of_lt (by omega)
      have hb : (engineLoop B st0 (m + 1)).buffer
          = (writeInputChannels (engineLoop B st0 m).buffer B.numCh
              (fun ch => B.input ch m)).advanceWritePosition := rfl
      rw [hb, advance_data, writeInputChannels_data _ _ _ ihf, hwpm, iha]
      simp only []
      rcases Nat.lt_succ_iff_lt_or_eq.mp hsm with hlt | heq
      · rw [if_neg]
        · exact ih hlt (by omega)
        · rintro ⟨-, hcon⟩
          have : st0.buffer.writePos + m < st0.buffer.activeSamples := by omega
          rw [Nat.mod_eq_of_lt this] at hcon
          omega
      · subst heq
        rw [if_pos ⟨hch, by rw [Nat.mod_eq_of_lt (by omega)]⟩]

/-- writeFeedbackAt preserves frozen. -/
lemma writeFeedbackAt_frozen (b : CircularBuffer) (ch : ℕ) (pos : ℤ) (v : ℝ) :
    (b.writeFeedbackAt ch pos v).frozen = b.frozen := by
  rw [CircularBuffer.writeFeedbackAt]; split <;> rfl

/-- writeFeedbackAt preserves activeSamples. -/
lemma writeFeedbackAt_activeSamples (b : CircularBuffer) (ch : ℕ) (pos : ℤ) (v : ℝ) :
    (b.writeFeedbackAt ch pos v).activeSamples = b.activeSamples := by
  rw [CircularBuffer.writeFeedbackAt]; split <;> rfl

/-- On an unfrozen buffer, writeFeedbackAt with an in-range non-negative int
position adds the sample at exactly that index. -/
lemma writeFeedbackAt_data (b : CircularBuffer) (ch : ℕ) (pos : ℤ) (v : ℝ)
    (hfz : b.frozen = false) (hpos : 0 ≤ pos) (hlt : pos < (b.activeSamples : ℤ)) :
    (b.writeFeedbackAt ch pos v).data = fun c i =>
      if c = ch ∧ i = pos.toNat then b.data c i + v else b.data c i := by
  have hLnn : (0 : ℤ) ≤ (b.activeSamples : ℤ) := Int.natCast_nonneg _
  have h1 : pos.tmod (b.activeSamples : ℤ) = pos := by
    rw [Int.tmod_eq_emod hpos hLnn, Int.emod_eq_of_lt hpos hlt]
  have h2 : (pos.tmod (b.activeSamples : ℤ) + (b.activeSamples : ℤ)).tmod (b.activeSamples : ℤ)
      = pos := by
    rw [h1, Int.tmod_eq_emod (by omega) hLnn, Int.add_emod_self, Int.emod_eq_of_lt hpos hlt]
  rw [CircularBuffer.writeFeedbackAt, if_neg (by simp [hfz])]
  simp only [h2]

/-- The channel loop of the feedback pass adds vals c at one index for every
channel below numCh. -/
lemma writeFeedbackChannels_frozen (b : CircularBuffer) (numCh : ℕ) (pos : ℤ) (vals : ℕ → ℝ) :
    (writeFeedbackChannels b numCh pos vals).frozen = b.frozen := by
  induction numCh with
  | zero => rfl
  | succ k ih =>
      show ((writeFeedbackChannels b k pos vals).writeFeedbackAt k pos (vals k)).frozen = _
      rw [writeFeedbackAt_frozen, ih]

/-- The feedback channel loop preserves activeSamples. -/
lemma writeFeedbackChannels_activeSamples (b : CircularBuffer) (numCh : ℕ) (pos : ℤ)
    (vals : ℕ → ℝ) :
    (writeFeedbackChannels b numCh pos vals).activeSamples = b.activeSamples := by
  induction numCh with
  | zero => rfl
  | succ k ih =>
      show ((writeFeedbackChannels b k pos vals).writeFeedbackAt k pos (vals k)).activeSamples = _
      rw [writeFeedbackAt_activeSamples, ih]

/-- Data effect of the feedback channel loop. -/
lemma writeFeedbackChannels_data (b : CircularBuffer) (numCh : ℕ) (pos : ℤ) (vals : ℕ → ℝ)
    (hfz : b.frozen = false) (hpos : 0 ≤ pos) (hlt : pos < (b.activeSamples : ℤ)) :
    (writeFeedbackChannels b numCh pos vals).data = fun c i =>
      if c < numCh ∧ i = pos.toNat then b.data c i + vals c else b.data c i := by
  induction numCh with
  | zero =>
      funext c i
      simp [writeFeedbackChannels]
  | succ k ih =>
      show ((writeFeedbackChannels b k pos vals).writeFeedbackAt k pos (vals k)).data = _
      rw [writeFeedbackAt_data _ _ _ _
          (by rw [writeFeedbackChannels_frozen, hfz])
          hpos (by rw [writeFeedbackChannels_activeSamples]; exact hlt), ih]
      funext c i
      simp only []
      by_cases h1 : c = k ∧ i = pos.toNat
      · rw [if_pos h1, if_neg (by omega), if_pos ⟨by omega, h1.2⟩, h1.1]
      · rw [if_neg h1]
        by_cases h2 : c < k ∧ i = pos.toNat
        · rw [if_pos h2, if_pos ⟨by omega, h2.2⟩]
        · rw [if_neg h2, if_neg ?_]
          intro hcon
          rcases Nat.lt_succ_iff_lt_or_eq.mp hcon.1 with h | h
          · exact h2 ⟨h, hcon.2⟩
          · exact h1 ⟨h, hcon.2⟩

/-- The feedback pass keeps the buffer unfrozen. -/
lemma feedbackPhase_frozen (numCh : ℕ) (recorded : ℕ → ℕ) (post : ℕ → ℕ → ℝ) (fbAmt : ℝ)
    (b : CircularBuffer) (n : ℕ) :
    (feedbackPhase numCh recorded post fbAmt b n).frozen = b.frozen := by
  induction n with
  | zero => rfl
  | succ m ih =>
      show (writeFeedbackChannels (feedbackPhase numCh recorded post fbAmt b m) numCh
        ((recorded m : ℕ) : ℤ) (fun ch => post ch m * fbAmt)).frozen = b.frozen
      rw [writeFeedbackChannels_frozen, ih]

/-- The feedback pass preserves activeSamples. -/
lemma feedbackPhase_activeSamples (numCh : ℕ) (recorded : ℕ → ℕ) (post : ℕ → ℕ → ℝ)
    (fbAmt : ℝ) (b : CircularBuffer) (n : ℕ) :
    (feedbackPhase numCh recorded post fbAmt b n).activeSamples = b.activeSamples := by
  induction n with
  | zero => rfl
  | succ m ih =>
      show (writeFeedbackChannels (feedbackPhase numCh recorded post fbAmt b m) numCh
        ((recorded m : ℕ) : ℤ) (fun ch => post ch m * fbAmt)).activeSamples = b.activeSamples
      rw [writeFeedbackChannels_activeSamples, ih]

/-- The feedback pass adds post[ch][s]·fbAmt at the recorded position of each
sample s < n, once, provided the recorded positions are in range and pairwise
distinct below n. -/
lemma feedbackPhase_data (numCh : ℕ) (recorded : ℕ → ℕ) (post : ℕ → ℕ → ℝ) (fbAmt : ℝ)
    (b : CircularBuffer) (hfz : b.frozen = false)
    (n : ℕ) (hrec : ∀ s', s' < n → recorded s' < b.activeSamples)
    (hinj : ∀ s' t', s' < n → t' < n → recorded s' = recorded t' → s' = t')
    (s ch : ℕ) (hs : s < n) (hch : ch < numCh) :
    (feedbackPhase numCh recorded post fbAmt b n).data ch (recorded s)
      = b.data ch (recorded s) + post ch s * fbAmt := by
  have key : ∀ m, m ≤ n →
      (feedbackPhase numCh recorded post fbAmt b m).data ch (recorded s)
        = if s < m then b.data ch (recorded s) + post ch s * fbAmt
          else b.data ch (recorded s) := by
    intro m
    induction m with
    | zero => intro _; rw [if_neg (by omega)]; rfl
    | succ m ih =>
        intro hmn
        show (writeFeedbackChannels (feedbackPhase numCh recorded post fbAmt b m) numCh
          ((recorded m : ℕ) : ℤ) (fun ch => post ch m * fbAmt)).data ch (recorded s) = _
        rw [writeFeedbackChannels_data _ _ _ _
            (by rw [feedbackPhase_frozen, hfz])
            (Int.natCast_nonneg _)
            (by rw [feedbackPhase_activeSamples]
                exact_mod_cast hrec m (by omega))]
        simp only [Int.toNat_natCast]
        by_cases heq : s = m
        · subst heq
          rw [if_pos ⟨hch, rfl⟩, ih (by omega), if_neg (by omega), if_pos (by omega)]
        · rw [if_neg ?_, ih (by omega)]
          · by_cases hsm : s < m
            · rw [if_pos hsm, if_pos (by omega)]
            · rw [if_neg hsm, if_neg (by omega)]
          · rintro ⟨-, hcon⟩
            exact heq (hinj s m hs (by omega) hcon)
  have := key n le_rfl
  rw [this, if_pos hs]

/-- C1: with feedback enabled (amount above the 0.001 threshold), an unfrozen
buffer, and a block that does not wrap (writePos + n within the active
length), the position recorded for sample s is the pre-write position wp0 + s
(not the write head after the block, which has moved n further), and the
feedback pass adds the post-processed grain mix of sample s scaled by the
feedback amount into the buffer exactly there: the final buffer content at
wp0 + s is the input written there plus postBlock[ch][s]·feedback. -/
theorem engine_feedback_at_recorded_positions (e : EngineState) (p : Params)
    (numCh n : ℕ) (schedRand lfoRand : ℕ → ℝ) (input : ℕ → ℕ → ℝ)
    (hfr : p.freeze = false)
    (hL : e.circularBuffer.writePos + n
      ≤ (e.circularBuffer.setBufferLength p.bufferLength).activeSamples)
    (hfb : (0.001 : ℝ) < p.feedback)
    (s ch : ℕ) (hs : s < n) (hch : ch < numCh) :
    recordedPos (GranularEngine.blockInputs e p numCh schedRand lfoRand input)
        (GranularEngine.initialLoopState e p) s = e.circularBuffer.writePos + s
    ∧ (GranularEngine.process e p numCh n schedRand lfoRand
          input).1.circularBuffer.data ch (e.circularBuffer.writePos + s)
        = input ch s
          + (GranularEngine.postBlock e p numCh n schedRand lfoRand input).2 ch s
            * p.feedback := by
  set B := GranularEngine.blockInputs e p numCh schedRand lfoRand input with hB
  set st0 := GranularEngine.initialLoopState e p with hst0
  have hfz : st0.buffer.frozen = false := hfr
  have hwp0 : st0.buffer.writePos = e.circularBuffer.writePos := rfl
  have hact : st0.buffer.activeSamples
      = (e.circularBuffer.setBufferLength p.bufferLength).activeSamples := rfl
  have hL' : st0.buffer.writePos + n ≤ st0.buffer.activeSamples := by
    rw [hwp0, hact]; exact hL
  have hwp : st0.buffer.writePos < st0.buffer.activeSamples := by omega
  have hinv := engineLoop_invariants B st0 hfz hwp
  have hrec : ∀ s', s' < n → recordedPos B st0 s' = st0.buffer.writePos + s' := by
    intro s' hs'
    show (engineLoop B st0 s').buffer.writePos = _
    rw [(hinv s').2.2]
    exact Nat.mod_eq_of_lt (by omega)
  refine ⟨by rw [hrec s hs, hwp0], ?_⟩
  have hproc : (GranularEngine.process e p numCh n schedRand lfoRand
      input).1.circularBuffer
      = if 0.001 < p.feedback
        then feedbackPhase numCh (recordedPos B st0)
          (GranularEngine.postBlock e p numCh n schedRand lfoRand input).2 p.feedback
          (engineLoop B st0 n).buffer n
        else (engineLoop B st0 n).buffer := rfl
  rw [hproc, if_pos hfb]
  have hfinfz : (engineLoop B st0 n).buffer.frozen = false := (hinv n).1
  have hrec' : ∀ s', s' < n →
      recordedPos B st0 s' < (engineLoop B st0 n).buffer.activeSamples := by
    intro s' hs'
    rw [(hinv n).2.1, hrec s' hs']
    omega
  have hinj : ∀ s' t', s' < n → t' < n →
      recordedPos B st0 s' = recordedPos B st0 t' → s' = t' := by
    intro s' t' hs' ht' hE
    rw [hrec s' hs', hrec t' ht'] at hE
    omega
  have htarget : e.circularBuffer.writePos + s = recordedPos B st0 s := by
    rw [hrec s hs, hwp0]
  rw [htarget,
    feedbackPhase_data numCh _ _ _ _ hfinfz n hrec' hinj s ch hs hch,
    hrec s hs,
    engineLoop_data B st0 hfz n hL' s ch hs hch n hs le_rfl]
  rfl

/-- Witness circular buffer for C1: silent 10000-sample buffer, write head at 100. -/
def c1Buffer : CircularBuffer :=
  { data := fun _ _ => 0, sr := 1000, maxSamples := 10000, activeSamples := 10000,
    writePos := 100, frozen := false }

/-- Witness engine state for C1. -/
def c1Engine : EngineState :=
  { sr := 1000, circularBuffer := c1Buffer, pool := GrainPool.initialPool,
    scheduler := ⟨0, 0⟩, lfo := ⟨0, 0, false, 0⟩, post := cPostState }

/-- Witness parameter snapshot for C1: feedback 0.5, no freeze, 1-second buffer
(1000 samples at the witness sample rate). -/
def c1Params : Params :=
  { grainSize := 100, grainDensity := 8, grainPosition := 0, grainPitch := 0,
    grainPan := 0, posScatter := 0, pitchScatter := 0, panScatter := 0,
    grainAttack := 25, grainDecay := 25, envelopeShape := .Hanning, freeze := false,
    reverse := false, feedback := 0.5, shimmer := 0, lowCut := 20, highCut := 20000,
    lfoRate := 1, lfoDepth := 0, lfoShape := .Sine, lfoTarget := .Size,
    stereoWidth := 100, outputLevel := 0, dryWet := 50, bufferLength := 1 }

/-- Witness: claim C1's theorem applied at the unit-impulse scenario
(buffer length 1000 after setBufferLength, write head at 100, one-sample
block): the recorded position is 100 and the feedback lands there. -/
theorem engine_feedback_at_recorded_positions_witness :
    recordedPos (GranularEngine.blockInputs c1Engine c1Params 1 (fun _ => 0) (fun _ => 0)
        (fun _ _ => 1)) (GranularEngine.initialLoopState c1Engine c1Params) 0
      = c1Engine.circularBuffer.writePos + 0
    ∧ (GranularEngine.process c1Engine c1Params 1 1 (fun _ => 0) (fun _ => 0)
          (fun _ _ => 1)).1.circularBuffer.data 0 (c1Engine.circularBuffer.writePos + 0)
        = (fun _ _ => (1 : ℝ)) 0 0
          + (GranularEngine.postBlock c1Engine c1Params 1 1 (fun _ => 0) (fun _ => 0)
              (fun _ _ => 1)).2 0 0 * c1Params.feedback :=
  engine_feedback_at_recorded_positions c1Engine c1Params 1 1 (fun _ => 0) (fun _ => 0)
    (fun _ _ => 1) rfl
    (by
      show 100 + 1 ≤ (c1Buffer.setBufferLength c1Params.bufferLength).activeSamples
      rw [CircularBuffer.setBufferLength]
      norm_num [c1Buffer, c1Params, realTrunc, jlimitZ])
    (by norm_num [c1Params]) 0 0 (by decide) (by decide)
